import Mathlib

/-!
Shallow embedding of the drift-semantic similarity pipeline
(tools/drift-semantic/pipeline/src/drift_semantic) and proofs about it.

Numeric values are modelled with the real numbers; Python dicts are
modelled as association lists in insertion order (a Python dict has
unique keys, which appears below either as an invariant preserved by the
constructors or as an explicit nodup hypothesis); Python sets are
modelled as finsets.  SHA-256 (hashlib, outside this repository) is
modelled by an abstract deterministic string function, since only
determinism and non-emptiness of digests are ever used.
-/

namespace DriftSemantic

noncomputable section

/-! ## Sparse vectors (vectors.py)

`SparseVector = Dict[str, float]`.  The key type is kept polymorphic:
score.py builds auxiliary dicts keyed by `str(i)` for an index `i`, and
only equality of keys matters, so those are modelled with natural-number
keys directly. -/

abbrev SparseVec (κ : Type) := List (κ × ℝ)

/-- Keys of a sparse vector, as a list (insertion order). -/
def svKeys {κ : Type} (v : SparseVec κ) : List κ := v.map Prod.fst

/-- The Python-dict invariant: keys are pairwise distinct. -/
def svNodup {κ : Type} (v : SparseVec κ) : Prop := (svKeys v).Nodup

/-- Value lookup with default 0, `v.get(k, 0.0)`. -/
def svGet {κ : Type} [DecidableEq κ] (v : SparseVec κ) (k : κ) : ℝ :=
  (v.lookup k).getD 0

/-- Key-set of a sparse vector, `set(v.keys())`. -/
def svKeyFinset {κ : Type} [DecidableEq κ] (v : SparseVec κ) : Finset κ :=
  (v.map Prod.fst).toFinset

/-- `vec[k] = vec.get(k, 0.0) + x` on a dict: update in place if the key is
present, append otherwise. -/
def svAdd {κ : Type} [DecidableEq κ] (v : SparseVec κ) (k : κ) (x : ℝ) :
    SparseVec κ :=
  if (v.lookup k).isSome then
    v.map (fun kv => if kv.1 = k then (kv.1, kv.2 + x) else kv)
  else v ++ [(k, x)]

/-- `vec[k] = x` on a dict: overwrite if present, append otherwise. -/
def svSet {κ : Type} [DecidableEq κ] (v : SparseVec κ) (k : κ) (x : ℝ) :
    SparseVec κ :=
  if (v.lookup k).isSome then
    v.map (fun kv => if kv.1 = k then (kv.1, x) else kv)
  else v ++ [(k, x)]

/-- Loop body of `dot`: iterate over the entries of the first argument and
accumulate `v * b[k]` for the keys also present in the second. -/
def dotCore {κ : Type} [DecidableEq κ] : SparseVec κ → SparseVec κ → ℝ
  | [], _ => 0
  | (k, v) :: rest, b =>
      (match b.lookup k with
       | some w => v * w
       | none => 0) + dotCore rest b

/-- `dot`: iterates over the smaller of the two dicts (vectors.py). -/
def dot {κ : Type} [DecidableEq κ] (a b : SparseVec κ) : ℝ :=
  if a.length > b.length then dotCore b a else dotCore a b

/-- `magnitude`: L2 norm; 0 for the empty dict (vectors.py). -/
def magnitude {κ : Type} (v : SparseVec κ) : ℝ :=
  if v.isEmpty then 0
  else Real.sqrt (v.foldl (fun acc kv => acc + kv.2 * kv.2) 0)

/-- `cosine_sim`: 0 when either dict is empty or has zero magnitude, the
clamped cosine otherwise (vectors.py). -/
def cosine_sim {κ : Type} [DecidableEq κ] (a b : SparseVec κ) : ℝ :=
  if a.isEmpty || b.isEmpty then 0
  else
    let d := dot a b
    let ma := magnitude a
    let mb := magnitude b
    if ma = 0 ∨ mb = 0 then 0
    else max 0 (min 1 (d / (ma * mb)))

/-- `jaccard_sim` on sets: 0 for two empty sets (vectors.py). -/
def jaccard_sim {κ : Type} [DecidableEq κ] (a b : Finset κ) : ℝ :=
  if a = ∅ ∧ b = ∅ then 0
  else
    let i := (a ∩ b).card
    let u := (a ∪ b).card
    if u = 0 then 0 else (i : ℝ) / u

/-! ## similarity.py -/

/-- Count of index positions where the two lists differ (over the common
prefix, which is all of both lists when the lengths agree). -/
def countDiffs (a b : List ℤ) : ℕ :=
  (a.zip b).countP (fun p => p.1 ≠ p.2)

/-- `normalized_hamming` (similarity.py): 1 for two empty vectors; for
unequal lengths every overhanging position counts as a mismatch. -/
def normalized_hamming (a b : List ℤ) : ℝ :=
  if a = [] ∧ b = [] then 1
  else if a.length ≠ b.length then
    let minLen := min a.length b.length
    let maxLen := max a.length b.length
    let mismatches := (maxLen - minLen) + countDiffs a b
    1 - (mismatches : ℝ) / maxLen
  else 1 - (countDiffs a b : ℝ) / a.length

/-- JSX rose tree `{tag, children[]}`.  Non-dict children are ignored by
every consumer of the tree in the source, so children are trees. -/
inductive Jsx where
  | node (tag : String) (children : List Jsx)

mutual

/-- `_count_tree_nodes` on a present tree. -/
def countNodes : Jsx → ℕ
  | .node _ cs => 1 + countNodesList cs

/-- Node count summed over a list of children. -/
def countNodesList : List Jsx → ℕ
  | [] => 0
  | c :: cs => countNodes c + countNodesList cs

end

mutual

/-- `_count_matching_nodes`: same tag at the same structural position,
children paired by index. -/
def matchNodes : Jsx → Jsx → ℕ
  | .node ta ca, .node tb cb =>
      (if ta = tb then 1 else 0) + matchChildren ca cb

/-- Index-paired matching over children lists (`zip`). -/
def matchChildren : List Jsx → List Jsx → ℕ
  | a :: as_, b :: bs => matchNodes a b + matchChildren as_ bs
  | _, _ => 0

end

/-- `_count_tree_nodes`: 0 for an absent tree. -/
def countNodesOpt : Option Jsx → ℕ
  | none => 0
  | some t => countNodes t

/-- `_count_matching_nodes`: 0 when either tree is absent. -/
def matchNodesOpt : Option Jsx → Option Jsx → ℕ
  | some a, some b => matchNodes a b
  | _, _ => 0

/-- `tree_edit_distance_normalized` (similarity.py): `min(1, 2M/T)`. -/
def tree_edit_distance_normalized (ta tb : Option Jsx) : ℝ :=
  match ta, tb with
  | none, none => 0
  | _, _ =>
    let total := countNodesOpt ta + countNodesOpt tb
    if total = 0 then 0
    else min 1 ((2 * (matchNodesOpt ta tb : ℝ)) / total)

/-! ## Hashing and input records -/

/-- Modelled from the spec: SHA-256 hex digest of a canonical-JSON string
(hashlib and json.dumps live outside this repository).  The spec only
requires hashes to be deterministic (same input, same hex digest) and the
digest is always a non-empty string; this abstract stand-in is injective
and non-empty, which is all any verified property uses. -/
def sha256Hex (s : String) : String := "h" ++ s

/-- Canonical serialization of a list of strings (canonical JSON of a JSON
array; used only as an opaque hash input). -/
def jsonStrList (l : List String) : String :=
  "[" ++ String.intercalate "," l ++ "]"

mutual

/-- Canonical serialization of a JSX tree (canonical JSON of the nested
`tag`/`children` object; used only as an opaque hash input). -/
def jsonJsx : Jsx → String
  | .node t cs => "(" ++ t ++ ";" ++ jsonJsxList cs ++ ")"

/-- Serialization of a children list. -/
def jsonJsxList : List Jsx → String
  | [] => ""
  | c :: cs => jsonJsx c ++ "," ++ jsonJsxList cs

end

/-- A `consumers` entry `{id, filePath, kind}` (bare-string entries in the
source collapse to an id with empty path and kind). -/
structure Consumer where
  id : String := ""
  filePath : String := ""
  kind : String := ""

/-- A `callees` entry `{target, context}`. -/
structure CalleeEntry where
  target : String := ""
  context : String := ""

/-- A code unit, restricted to the fields the pipeline consumes.  Dict
fields that the source tolerates in several JSON shapes are modelled in
the shape the data model documents: `hookCalls` as name/count records
(bare strings carry count 1), `coOccurrences` and `consumerKinds` as
mappings, `parameters` as the list of parameter type strings (names are
stripped by the typesig stage anyway; a missing type reads as "any" at
extraction). -/
structure CodeUnit where
  id : String := ""
  kind : String := ""
  filePath : String := ""
  name : String := ""
  parameters : List String := []
  returnType : String := "any"
  jsxTree : Option Jsx := none
  hookCalls : List (String × ℤ) := []
  imports : List String := []
  storeAccess : List String := []
  dataSourceAccess : List String := []
  isAsync : Bool := false
  hasErrorHandling : Bool := false
  hasLoadingState : Bool := false
  hasEmptyState : Bool := false
  hasRetryLogic : Bool := false
  rendersIteration : Bool := false
  rendersConditional : Bool := false
  sideEffects : Bool := false
  callees : List CalleeEntry := []
  calleeSequence : List (String × List String) := []
  chainPatterns : List String := []
  consumers : List Consumer := []
  coOccurrences : List (String × ℝ) := []
  consumerKinds : List (String × ℕ) := []
  consumerDirectories : List String := []
  consumerCount : Option ℕ := none

instance : Inhabited CodeUnit := ⟨{}⟩

/-- `m[k] = x` on a dict: overwrite in place if the key is present, append
otherwise (insertion order preserved, as in Python). -/
def setEntry {κ α : Type} [DecidableEq κ] (m : List (κ × α)) (k : κ) (x : α) :
    List (κ × α) :=
  if (m.lookup k).isSome then
    m.map (fun kv => if kv.1 = k then (kv.1, x) else kv)
  else m ++ [(k, x)]

/-- Per-stage artifacts are dicts keyed by unit id. -/
abbrev Artifact (α : Type) := List (String × α)

/-! ## fingerprint.py -/

/-- Regex `^[A-Z][a-zA-Z0-9]+$`: an uppercase letter followed by at least
one alphanumeric character. -/
def isPascalTag (t : String) : Bool :=
  match t.data with
  | [] => false
  | c :: rest => c.isUpper && !rest.isEmpty && rest.all Char.isAlphanum

mutual

/-- `_wildcard_custom_tags`: PascalCase tags become the literal `<C>`. -/
def wildcard_custom_tags : Jsx → Jsx
  | .node t cs => .node (if isPascalTag t then "<C>" else t)
      (wildcardList cs)

/-- `_wildcard_custom_tags` mapped over children. -/
def wildcardList : List Jsx → List Jsx
  | [] => []
  | c :: cs => wildcard_custom_tags c :: wildcardList cs

end

/-- The `{exact, fuzzy}` JSX hash pair. -/
structure JsxHash where
  exact : Option String := none
  fuzzy : Option String := none

/-- `jsx_hash`: both fields are null without a tree. -/
def jsx_hash (u : CodeUnit) : JsxHash :=
  match u.jsxTree with
  | none => {}
  | some t =>
      { exact := some (sha256Hex (jsonJsx t))
        fuzzy := some (sha256Hex (jsonJsx (wildcard_custom_tags t))) }

/-- The fixed hook order of `_HOOK_ORDER`. -/
def HOOK_ORDER : List String :=
  ["useState", "useEffect", "useCallback", "useMemo", "useRef",
   "useContext", "useReducer", "useLayoutEffect", "useDeferredValue",
   "useTransition"]

/-- Accumulated count for one hook name over the `hookCalls` entries. -/
def hookCountFor (calls : List (String × ℤ)) (name : String) : ℤ :=
  (calls.filter (fun e => e.1 == name)).foldl (fun a e => a + e.2) 0

/-- `hook_profile`: fixed-length vector of built-in hook counts. -/
def hook_profile (u : CodeUnit) : List ℤ :=
  HOOK_ORDER.map (hookCountFor u.hookCalls)

/-- 1 for a set behavior marker, 0 otherwise. -/
def flagBit (b : Bool) : ℤ := if b then 1 else 0

/-- `behavior_flags`: binary vector in the `_BEHAVIOR_KEYS` order. -/
def behavior_flags (u : CodeUnit) : List ℤ :=
  [flagBit u.isAsync, flagBit u.hasErrorHandling, flagBit u.hasLoadingState,
   flagBit u.hasEmptyState, flagBit u.hasRetryLogic,
   flagBit u.rendersIteration, flagBit u.rendersConditional,
   flagBit u.sideEffects]

/-- Number of documents (units) whose item list contains `s`
(a repeated item inside one document counts once, as with a per-unit
set). -/
def docFreq (docs : List (List String)) (s : String) : ℕ :=
  docs.countP (fun d => d.contains s)

/-- Inverse document frequency table, shared shape of `_compute_idf`
(import sources) and `_compute_callee_idf` (callee targets):
`ln(N / df)`, with keys exactly the non-empty items of df at least 1;
empty corpus gives the empty table. -/
def idfOf (docs : List (List String)) (s : String) : Option ℝ :=
  if docs.length = 0 then none
  else if s = "" then none
  else if docFreq docs s = 0 then none
  else some (Real.log ((docs.length : ℝ) / (docFreq docs s : ℝ)))

/-- Shared loop of `import_constellation` and `callee_set_vector`:
`vec[item] = vec.get(item, 0.0) + idf[item]` for each non-empty item with
an idf entry. -/
def idfWeightedVector (items : List String) (idf : String → Option ℝ) :
    SparseVec String :=
  items.foldl (fun vec src =>
    if src = "" then vec
    else match idf src with
      | some w => svAdd vec src w
      | none => vec) []

/-- `import_constellation`: import sources weighted by corpus IDF. -/
def import_constellation (u : CodeUnit) (idf : String → Option ℝ) :
    SparseVec String :=
  idfWeightedVector u.imports idf

/-- `data_access_pattern`: `store:<name>` and `ds:<name>` keys weighted by
occurrence count. -/
def data_access_pattern (u : CodeUnit) : SparseVec String :=
  let v := u.storeAccess.foldl (fun vec name =>
    if name = "" then vec else svAdd vec ("store:" ++ name) 1) []
  u.dataSourceAccess.foldl (fun vec name =>
    if name = "" then vec else svAdd vec ("ds:" ++ name) 1) v

/-- Per-unit structural fingerprint record; the defaults are what score.py
reads off `fps.get(uid, {})` for a missing unit. -/
structure Fingerprint where
  jsxHash : JsxHash := {}
  hookProfile : List ℤ := []
  importConstellation : SparseVec String := []
  behaviorFlags : List ℤ := []
  dataAccessPattern : SparseVec String := []

instance : Inhabited Fingerprint := ⟨{}⟩

/-- `compute_fingerprints`: dict keyed by unit id (empty ids skipped). -/
def compute_fingerprints (units : List CodeUnit) : Artifact Fingerprint :=
  let idf := idfOf (units.map (·.imports))
  units.foldl (fun res u =>
    if u.id = "" then res
    else setEntry res u.id
      { jsxHash := jsx_hash u
        hookProfile := hook_profile u
        importConstellation := import_constellation u idf
        behaviorFlags := behavior_flags u
        dataAccessPattern := data_access_pattern u }) []

/-! ## typesig.py -/

/-- Substring test used by `_classify_type` (`pat in s` for a non-empty
pattern). -/
def strContains (s pat : String) : Bool := (s.splitOn pat).length > 1

/-- `_classify_type` as the four category bits
(void, function, object, array). -/
def classify_type (t : String) : Bool × Bool × Bool × Bool :=
  let lower := (t.toLower).trim
  (lower == "void" || lower == "undefined" || lower == "never",
   strContains t "=>" || strContains lower "function"
     || strContains lower "callback",
   lower == "object" || t.startsWith "\x7b" || strContains lower "record",
   strContains t "[]" || lower.startsWith "array" || strContains lower "list")

/-- Normalized type-signature record of the `type-signatures` artifact. -/
structure TypeSig where
  strict_hash : String := ""
  loose_hash : String := ""
  canonical : String := ""
  arity : ℕ := 0

/-- Canonical-JSON hash input of the strict signature
`params [t1, ..., tn]` and `return R`. -/
def strictSigInput (params : List String) (ret : String) : String :=
  "params:" ++ jsonStrList params ++ ";return:" ++ ret

/-- Canonical-JSON hash input of the loose signature (arity plus the four
category booleans). -/
def looseSigInput (arity : ℕ) (v f o a : Bool) : String :=
  "arity:" ++ toString arity ++ ";void:" ++ toString v ++ ";fn:"
    ++ toString f ++ ";obj:" ++ toString o ++ ";arr:" ++ toString a

/-- `normalize_type` (plus the `arity` stored by
`compute_type_signatures`). -/
def normalize_type (params : List String) (return_type : String) : TypeSig :=
  let retClass := classify_type return_type
  let hasFn := params.any (fun pt => (classify_type pt).2.1)
  let hasObj := params.any (fun pt => (classify_type pt).2.2.1)
  let hasArr := params.any (fun pt => (classify_type pt).2.2.2)
  { strict_hash := sha256Hex (strictSigInput params return_type)
    loose_hash :=
      sha256Hex (looseSigInput params.length retClass.1 hasFn hasObj hasArr)
    canonical := "(" ++ String.intercalate ", " params ++ ") => "
      ++ return_type
    arity := params.length }

/-- `compute_type_signatures`: dict keyed by unit id. -/
def compute_type_signatures (units : List CodeUnit) : Artifact TypeSig :=
  units.foldl (fun res u =>
    if u.id = "" then res
    else setEntry res u.id (normalize_type u.parameters u.returnType)) []

/-! ## callgraph.py -/

/-- Targets of the `callees` entries. -/
def calleeTargets (u : CodeUnit) : List String :=
  u.callees.map (·.target)

/-- `callee_set_vector`: callee targets weighted by corpus IDF. -/
def callee_set_vector (u : CodeUnit) (idf : String → Option ℝ) :
    SparseVec String :=
  idfWeightedVector (calleeTargets u) idf

/-- `sequence_hashes`: per non-empty context, the hash of the ordered
callee list. -/
def sequence_hashes (u : CodeUnit) : List (String × String) :=
  u.calleeSequence.foldl (fun res p =>
    if p.2.isEmpty then res
    else setEntry res p.1 (sha256Hex (jsonStrList p.2))) []

/-- Per-unit call-graph record.  The artifact also carries
`chainPatternHashes` and `depthProfile`; neither is read by the scoring
stage nor by any verified claim, so they are not modelled. -/
structure CallVec where
  calleeSetVector : SparseVec String := []
  sequenceHashes : List (String × String) := []

instance : Inhabited CallVec := ⟨{}⟩

/-- `compute_call_vectors`: dict keyed by unit id. -/
def compute_call_vectors (units : List CodeUnit) : Artifact CallVec :=
  let idf := idfOf (units.map calleeTargets)
  units.foldl (fun res u =>
    if u.id = "" then res
    else setEntry res u.id
      { calleeSetVector := callee_set_vector u idf
        sequenceHashes := sequence_hashes u }) []

/-! ## depcontext.py -/

/-- `_shannon_entropy` over a category-to-count mapping. -/
def shannon_entropy (counts : List (String × ℕ)) : ℝ :=
  let total : ℕ := (counts.map (·.2)).sum
  if total = 0 then 0
  else counts.foldl (fun e kv =>
    if 0 < kv.2 then
      e - ((kv.2 : ℝ) / total) * Real.logb 2 ((kv.2 : ℝ) / total)
    else e) 0

/-- Consumer ids of a unit (non-empty ids only), as a set. -/
def consumerIdSet (u : CodeUnit) : Finset String :=
  ((u.consumers.map (·.id)).filter (fun c => c != "")).toFinset

/-- `consumer_profile`: `[normalized_count, kind_entropy,
min(1, dir_spread)]`.  The directory count comes from the
`consumerDirectories` rollup (the list shape; the source also accepts a
dict, whose length is the same distinct count). -/
def consumer_profile (u : CodeUnit) : List ℝ :=
  let consumer_count : ℕ := u.consumerCount.getD u.consumers.length
  let normalized_count : ℝ :=
    if 0 < consumer_count then min 1 ((consumer_count : ℝ) / 50) else 0
  let kind_entropy : ℝ :=
    if u.consumerKinds.isEmpty then 0 else shannon_entropy u.consumerKinds
  let distinct_dirs : ℕ := u.consumerDirectories.dedup.length
  let dir_spread : ℝ :=
    if 0 < distinct_dirs then
      (distinct_dirs : ℝ) / (max consumer_count 1 : ℕ)
    else 0
  [normalized_count, kind_entropy, min 1 dir_spread]

/-- `cooccurrence_vector` (mapping shape): `vec[uid] = float(val)`. -/
def cooccurrence_vector (u : CodeUnit) : SparseVec String :=
  u.coOccurrences.foldl (fun vec kv => svSet vec kv.1 kv.2) []

/-- `_build_consumer_graph`: unit id to the set of its consumer ids. -/
def build_consumer_graph (units : List CodeUnit) :
    List (String × Finset String) :=
  units.foldl (fun g u =>
    if u.id = "" then g else setEntry g u.id (consumerIdSet u)) []

/-- One BFS round plus recursion: visited so far, current frontier.  The
source mutates `visited` inside the round; the result after a round is
the same union computed here. -/
def bfsVisit (graph : List (String × Finset String)) :
    ℕ → Finset String → Finset String → Finset String
  | 0, visited, _ => visited
  | r + 1, visited, frontier =>
      let next :=
        (frontier.biUnion (fun nid => ((graph.lookup nid).getD ∅))) \ visited
      if next = ∅ then visited
      else bfsVisit graph r (visited ∪ next) next

/-- `neighborhood_hash`: hash of the sorted ids within `radius` hops,
excluding the unit itself. -/
def neighborhood_hash (unit_id : String)
    (graph : List (String × Finset String)) (radius : ℕ) : String :=
  let visited := bfsVisit graph radius {unit_id} {unit_id}
  sha256Hex (jsonStrList ((visited.erase unit_id).sort (· ≤ ·)))

/-- Per-unit dependency-context record. -/
structure DepCtx where
  consumerProfile : List ℝ := []
  cooccurrenceVector : SparseVec String := []
  neighborhoodHash_r1 : String := ""
  neighborhoodHash_r2 : String := ""

instance : Inhabited DepCtx := ⟨{}⟩

/-- `compute_dep_context`: dict keyed by unit id. -/
def compute_dep_context (units : List CodeUnit) : Artifact DepCtx :=
  let graph := build_consumer_graph units
  units.foldl (fun res u =>
    if u.id = "" then res
    else setEntry res u.id
      { consumerProfile := consumer_profile u
        cooccurrenceVector := cooccurrence_vector u
        neighborhoodHash_r1 := neighborhood_hash u.id graph 1
        neighborhoodHash_r2 := neighborhood_hash u.id graph 2 }) []

/-! ## score.py -/

/-- Base weight table with embeddings present. -/
def WEIGHTS_WITH_EMBEDDINGS : List (String × ℝ) :=
  [("semantic", 0.20), ("typeSignature", 0.12), ("jsxStructure", 0.13),
   ("hookProfile", 0.05), ("imports", 0.05), ("dataAccess", 0.03),
   ("behavior", 0.02), ("calleeSet", 0.10), ("callSequence", 0.10),
   ("consumerSet", 0.08), ("coOccurrence", 0.07), ("neighborhood", 0.05)]

/-- Base weight table without embeddings. -/
def WEIGHTS_WITHOUT_EMBEDDINGS : List (String × ℝ) :=
  [("typeSignature", 0.16), ("jsxStructure", 0.16), ("hookProfile", 0.06),
   ("imports", 0.06), ("dataAccess", 0.04), ("behavior", 0.02),
   ("calleeSet", 0.13), ("callSequence", 0.13), ("consumerSet", 0.10),
   ("coOccurrence", 0.08), ("neighborhood", 0.06)]

/-- `_SKIP_KINDS`. -/
def SKIP_KINDS : List String :=
  ["type", "enum", "constant", "interface", "typeAlias"]

/-- `_is_comparable`: equal kinds, or one of the unordered related pairs
component/hook and hook/function. -/
def is_comparable (kind_a kind_b : String) : Bool :=
  kind_a == kind_b
    || (kind_a == "component" && kind_b == "hook")
    || (kind_a == "hook" && kind_b == "component")
    || (kind_a == "hook" && kind_b == "function")
    || (kind_a == "function" && kind_b == "hook")

/-- Sum of the values of a weight dict. -/
def sumVals (w : List (String × ℝ)) : ℝ := (w.map (·.2)).sum

/-- First half of `_get_weights`: pick the base table, optionally make
room for `structuralPattern`, drop component/hook-only signals.  (The
function is split before its final renormalization step purely to name
the intermediate dict; `get_weights` below is the whole of
`_get_weights`.) -/
def adapted_weights (has_embeddings has_structural_patterns : Bool)
    (kind_a kind_b : String) : List (String × ℝ) :=
  let base := if has_embeddings then WEIGHTS_WITH_EMBEDDINGS
              else WEIGHTS_WITHOUT_EMBEDDINGS
  let base := if has_structural_patterns then
      (let t := sumVals base
       base.map (fun kv => (kv.1, kv.2 * ((t - 0.05) / t))))
        ++ [("structuralPattern", 0.05)]
    else base
  let bothComponents := kind_a == "component" && kind_b == "component"
  let hasHooks := (kind_a == "component" || kind_a == "hook")
    && (kind_b == "component" || kind_b == "hook")
  base.filter (fun kv =>
    !(kv.1 == "jsxStructure" && !bothComponents)
      && !(kv.1 == "hookProfile" && !hasHooks))

/-- `_get_weights`: the adapted dict, renormalized when its total is
positive. -/
def get_weights (has_embeddings has_structural_patterns : Bool)
    (kind_a kind_b : String) : List (String × ℝ) :=
  let base := adapted_weights has_embeddings has_structural_patterns
    kind_a kind_b
  let t := sumVals base
  if 0 < t then base.map (fun kv => (kv.1, kv.2 / t)) else base

/-- Python truthiness of an optional string. -/
def optTruthy : Option String → Bool
  | some s => s != ""
  | none => false

/-- The dense embedding list as a dict keyed by position (the source keys
it by `str(i)`; only key equality matters, so the index itself serves). -/
def denseVec (l : List ℝ) : SparseVec ℕ := l.enum

/-- `sig_semantic`: cosine of the two embeddings, 0 when either is
absent. -/
def sig_semantic (emb : Artifact (List ℝ)) (uid_a uid_b : String) : ℝ :=
  match emb.lookup uid_a, emb.lookup uid_b with
  | some ea, some eb => cosine_sim (denseVec ea) (denseVec eb)
  | _, _ => 0

/-- `sig_type_signature`: strict 1.0, loose 0.7, equal positive arity
0.4. -/
def sig_type_signature (ts : Artifact TypeSig) (uid_a uid_b : String) : ℝ :=
  match ts.lookup uid_a, ts.lookup uid_b with
  | some sa, some sb =>
      if sa.strict_hash != "" && sa.strict_hash == sb.strict_hash then 1
      else if sa.loose_hash != "" && sa.loose_hash == sb.loose_hash then 0.7
      else if 0 < sa.arity ∧ sa.arity = sb.arity then 0.4
      else 0
  | _, _ => 0

/-- `sig_jsx_structure`: exact 1.0, fuzzy 0.9, else approximate tree-edit
similarity; 0 when either unit has no tree. -/
def sig_jsx_structure (fps : Artifact Fingerprint) (ubi : Artifact CodeUnit)
    (uid_a uid_b : String) : ℝ :=
  let ta := ((ubi.lookup uid_a).getD {}).jsxTree
  let tb := ((ubi.lookup uid_b).getD {}).jsxTree
  match ta, tb with
  | some _, some _ =>
      let fa := ((fps.lookup uid_a).getD {}).jsxHash
      let fb := ((fps.lookup uid_b).getD {}).jsxHash
      if optTruthy fa.exact && fa.exact == fb.exact then 1
      else if optTruthy fa.fuzzy && fa.fuzzy == fb.fuzzy then 0.9
      else tree_edit_distance_normalized ta tb
  | _, _ => 0

/-- The hook-profile list as a dict of its non-zero positions. -/
def hookVec (hp : List ℤ) : SparseVec ℕ :=
  (hp.enum.filter (fun p => p.2 != 0)).map (fun p => (p.1, (p.2 : ℝ)))

/-- `sig_hook_profile`: cosine of the non-zero hook positions. -/
def sig_hook_profile (fps : Artifact Fingerprint) (uid_a uid_b : String) : ℝ :=
  let hp_a := ((fps.lookup uid_a).getD {}).hookProfile
  let hp_b := ((fps.lookup uid_b).getD {}).hookProfile
  if hp_a.isEmpty || hp_b.isEmpty then 0
  else cosine_sim (hookVec hp_a) (hookVec hp_b)

/-- `sig_imports`: cosine of the import constellations. -/
def sig_imports (fps : Artifact Fingerprint) (uid_a uid_b : String) : ℝ :=
  cosine_sim ((fps.lookup uid_a).getD {}).importConstellation
    ((fps.lookup uid_b).getD {}).importConstellation

/-- `sig_data_access`: Jaccard of the data-access key sets. -/
def sig_data_access (fps : Artifact Fingerprint) (uid_a uid_b : String) : ℝ :=
  let dap_a := ((fps.lookup uid_a).getD {}).dataAccessPattern
  let dap_b := ((fps.lookup uid_b).getD {}).dataAccessPattern
  if dap_a.isEmpty && dap_b.isEmpty then 0
  else jaccard_sim (svKeyFinset dap_a) (svKeyFinset dap_b)

/-- `sig_behavior`: normalized Hamming similarity; two empty flag vectors
give 1.0. -/
def sig_behavior (fps : Artifact Fingerprint) (uid_a uid_b : String) : ℝ :=
  let bf_a := ((fps.lookup uid_a).getD {}).behaviorFlags
  let bf_b := ((fps.lookup uid_b).getD {}).behaviorFlags
  if bf_a.isEmpty && bf_b.isEmpty then 1
  else normalized_hamming bf_a bf_b

/-- `sig_callee_set`: cosine of the callee set vectors. -/
def sig_callee_set (cg : Artifact CallVec) (uid_a uid_b : String) : ℝ :=
  cosine_sim ((cg.lookup uid_a).getD {}).calleeSetVector
    ((cg.lookup uid_b).getD {}).calleeSetVector

/-- `sig_call_sequence`: 1.0 on any shared-context hash match, else a
partial score from the shared-context count. -/
def sig_call_sequence (cg : Artifact CallVec) (uid_a uid_b : String) : ℝ :=
  let seq_a := ((cg.lookup uid_a).getD {}).sequenceHashes
  let seq_b := ((cg.lookup uid_b).getD {}).sequenceHashes
  let common := (seq_a.map Prod.fst).toFinset ∩ (seq_b.map Prod.fst).toFinset
  if common = ∅ then 0
  else if ∃ ctx ∈ common, seq_a.lookup ctx = seq_b.lookup ctx then 1
  else 0.3 * (common.card : ℝ) / ((max seq_a.length seq_b.length : ℕ) : ℝ)

/-- Python `fp.split("/")`, modelled on the character list of the
string: the separator is a single character, so Python string split and
character-list split agree.  Built on lists so that concrete inputs
evaluate. -/
def pathParts (fp : String) : List String :=
  (fp.data.splitOn '/').map (fun l => (⟨l⟩ : String))

/-- Python `"/" in fp`, on the character list. -/
def containsSlash (fp : String) : Bool := fp.data.contains '/'

/-- `rsplit("/", 1)[0]`: everything before the last slash (the string
itself when it has none). -/
def rsplitDir (fp : String) : String :=
  let parts := fp.data.splitOn '/'
  if parts.length ≤ 1 then fp
  else ⟨List.intercalate ['/'] parts.dropLast⟩

/-- `sig_consumer_set`: Jaccard of consumer-id sets, with a 1.2x bonus
(clamped) when the shared consumers span more than one directory. -/
def sig_consumer_set (ubi : Artifact CodeUnit) (uid_a uid_b : String) : ℝ :=
  let consumers_a := consumerIdSet ((ubi.lookup uid_a).getD {})
  let consumers_b := consumerIdSet ((ubi.lookup uid_b).getD {})
  if consumers_a = ∅ ∧ consumers_b = ∅ then 0
  else
    let base := jaccard_sim consumers_a consumers_b
    let shared := consumers_a ∩ consumers_b
    if shared ≠ ∅ then
      let dirs := (shared.filter (fun cid =>
          containsSlash (((ubi.lookup cid).getD {}).filePath) = true)).image
        (fun cid => rsplitDir (((ubi.lookup cid).getD {}).filePath))
      if 1 < dirs.card then min 1 (base * 1.2) else base
    else base

/-- `sig_cooccurrence`: cosine of the co-occurrence vectors. -/
def sig_cooccurrence (dc : Artifact DepCtx) (uid_a uid_b : String) : ℝ :=
  cosine_sim ((dc.lookup uid_a).getD {}).cooccurrenceVector
    ((dc.lookup uid_b).getD {}).cooccurrenceVector

/-- `sig_neighborhood`: r1 hash match 1.0, r2 match 0.6, else 0.  A unit
missing from the artifact reads as an absent (falsy) hash. -/
def sig_neighborhood (dc : Artifact DepCtx) (uid_a uid_b : String) : ℝ :=
  let r1_a := (dc.lookup uid_a).map (·.neighborhoodHash_r1)
  let r1_b := (dc.lookup uid_b).map (·.neighborhoodHash_r1)
  if optTruthy r1_a && r1_a == r1_b then 1
  else
    let r2_a := (dc.lookup uid_a).map (·.neighborhoodHash_r2)
    let r2_b := (dc.lookup uid_b).map (·.neighborhoodHash_r2)
    if optTruthy r2_a && r2_a == r2_b then 0.6 else 0

/-- `sig_structural_pattern`: Jaccard of the pattern tag sets. -/
def sig_structural_pattern (pats : Artifact (List String))
    (uid_a uid_b : String) : ℝ :=
  let pa := (pats.lookup uid_a).getD []
  let pb := (pats.lookup uid_b).getD []
  if pa.isEmpty && pb.isEmpty then 0
  else jaccard_sim pa.toFinset pb.toFinset

/-- The per-pair signal dict, built in the fixed textual order of the
`if name in weights` blocks of `compute_scores`. -/
def computeSignals (w : List (String × ℝ)) (ubi : Artifact CodeUnit)
    (fps : Artifact Fingerprint) (ts : Artifact TypeSig)
    (cg : Artifact CallVec) (dc : Artifact DepCtx)
    (emb : Artifact (List ℝ)) (pats : Artifact (List String))
    (a b : String) : List (String × ℝ) :=
  (if (w.lookup "semantic").isSome then
    [("semantic", sig_semantic emb a b)] else [])
  ++ (if (w.lookup "typeSignature").isSome then
    [("typeSignature", sig_type_signature ts a b)] else [])
  ++ (if (w.lookup "jsxStructure").isSome then
    [("jsxStructure", sig_jsx_structure fps ubi a b)] else [])
  ++ (if (w.lookup "hookProfile").isSome then
    [("hookProfile", sig_hook_profile fps a b)] else [])
  ++ (if (w.lookup "imports").isSome then
    [("imports", sig_imports fps a b)] else [])
  ++ (if (w.lookup "dataAccess").isSome then
    [("dataAccess", sig_data_access fps a b)] else [])
  ++ (if (w.lookup "behavior").isSome then
    [("behavior", sig_behavior fps a b)] else [])
  ++ (if (w.lookup "calleeSet").isSome then
    [("calleeSet", sig_callee_set cg a b)] else [])
  ++ (if (w.lookup "callSequence").isSome then
    [("callSequence", sig_call_sequence cg a b)] else [])
  ++ (if (w.lookup "consumerSet").isSome then
    [("consumerSet", sig_consumer_set ubi a b)] else [])
  ++ (if (w.lookup "coOccurrence").isSome then
    [("coOccurrence", sig_cooccurrence dc a b)] else [])
  ++ (if (w.lookup "neighborhood").isSome then
    [("neighborhood", sig_neighborhood dc a b)] else [])
  ++ (if (w.lookup "structuralPattern").isSome then
    [("structuralPattern", sig_structural_pattern pats a b)] else [])

/-- The weighted sum `sum(weights.get(name, 0.0) * value)`. -/
def scoreOf (w signals : List (String × ℝ)) : ℝ :=
  (signals.map (fun kv => ((w.lookup kv.1).getD 0) * kv.2)).sum

/-- `max(signals, key=...)`: the first signal of maximal value in
insertion order; empty dict gives the empty name. -/
def dominantOf (signals : List (String × ℝ)) : String :=
  match signals with
  | [] => ""
  | s :: rest =>
      (rest.foldl (fun best kv => if best.2 < kv.2 then kv else best) s).1

/-- Raw (pre-rounding) result for one candidate pair. -/
structure PairScore where
  score : ℝ
  signals : List (String × ℝ)
  dominantSignal : String

/-- The per-pair body of the `compute_scores` double loop: adapt weights
to the kinds of the two units, compute the signal dict, the weighted sum
and the dominant signal. -/
def score_pair (ubi : Artifact CodeUnit) (fps : Artifact Fingerprint)
    (ts : Artifact TypeSig) (cg : Artifact CallVec) (dc : Artifact DepCtx)
    (emb : Artifact (List ℝ)) (pats : Artifact (List String))
    (has_embeddings has_structural_patterns : Bool)
    (uid_a uid_b : String) : PairScore :=
  let kind_a := ((ubi.lookup uid_a).getD {}).kind
  let kind_b := ((ubi.lookup uid_b).getD {}).kind
  let w := get_weights has_embeddings has_structural_patterns kind_a kind_b
  let signals := computeSignals w ubi fps ts cg dc emb pats uid_a uid_b
  { score := scoreOf w signals
    signals := signals
    dominantSignal := dominantOf signals }

/-- An entry of the similarity-matrix artifact. -/
structure ScoredPair where
  unitA : String := ""
  unitB : String := ""
  score : ℝ := 0
  signals : List (String × ℝ) := []
  dominantSignal : String := ""

instance : Inhabited ScoredPair := ⟨{}⟩

/-- Python `round(x, 4)` (round-half-to-even differs from round-half-up
only at exact ties, which no verified property depends on). -/
def round4 (x : ℝ) : ℝ := ((round (x * 10000) : ℤ) : ℝ) / 10000

/-- The units-by-id lookup dict (empty ids skipped). -/
def units_by_id (units : List CodeUnit) : Artifact CodeUnit :=
  units.foldl (fun m u => if u.id = "" then m else setEntry m u.id u) []

/-- All index-ordered pairs `(i, j)` with `i < j` of a list, in the
double-loop order of `compute_scores`. -/
def pairsOf {α : Type} : List α → List (α × α)
  | [] => []
  | x :: rest => rest.map (fun y => (x, y)) ++ pairsOf rest

/-- `compute_scores`: filter candidates by kind, skip same-file and
incomparable pairs, emit rounded pairs with score at or above the
threshold.  The source finally sorts the emitted list by descending
score before writing; ordering is not consumed by any verified claim. -/
def compute_scores (units : List CodeUnit) (fps : Artifact Fingerprint)
    (ts : Artifact TypeSig) (cg : Artifact CallVec) (dc : Artifact DepCtx)
    (emb : Artifact (List ℝ)) (pats : Artifact (List String))
    (threshold : ℝ) : List ScoredPair :=
  let ubi := units_by_id units
  let has_embeddings := !emb.isEmpty
  let has_structural_patterns := !pats.isEmpty
  let candidate_ids :=
    (ubi.filter (fun kv => !(SKIP_KINDS.contains kv.2.kind))).map Prod.fst
  (pairsOf candidate_ids).filterMap (fun p =>
    let uid_a := p.1
    let uid_b := p.2
    let file_a := ((ubi.lookup uid_a).getD {}).filePath
    let file_b := ((ubi.lookup uid_b).getD {}).filePath
    if file_a ≠ "" ∧ file_b ≠ "" ∧ file_a = file_b then none
    else if is_comparable ((ubi.lookup uid_a).getD {}).kind
        ((ubi.lookup uid_b).getD {}).kind then
      let ps := score_pair ubi fps ts cg dc emb pats
        has_embeddings has_structural_patterns uid_a uid_b
      if threshold ≤ ps.score then
        some { unitA := uid_a, unitB := uid_b, score := round4 ps.score,
               signals := ps.signals.map (fun kv => (kv.1, round4 kv.2)),
               dominantSignal := ps.dominantSignal }
      else none
    else none)

/-! ## cluster.py -/

/-- A cluster record of the clusters artifact. -/
structure Cluster where
  id : String := ""
  members : List String := []
  memberCount : ℕ := 0
  avgSimilarity : ℝ := 0
  signalBreakdown : List (String × ℝ) := []
  directorySpread : ℕ := 0
  kindMix : List (String × ℕ) := []
  sharedCallees : List String := []
  consumerOverlap : ℝ := 0
  rankScore : ℝ := 0

instance : Inhabited Cluster := ⟨{}⟩

/-- `m[k] = m.get(k, 0) + 1` on a counting dict. -/
def bumpCount (m : List (String × ℕ)) (k : String) : List (String × ℕ) :=
  if (m.lookup k).isSome then
    m.map (fun kv => if kv.1 = k then (kv.1, kv.2 + 1) else kv)
  else m ++ [(k, 1)]

/-- `_get_signal_breakdown`: per-signal mean over intra-cluster edges,
rounded; empty when the cluster has no intra-cluster edge. -/
def get_signal_breakdown (members : Finset String)
    (scored_pairs : List ScoredPair) : List (String × ℝ) :=
  let within := scored_pairs.filter (fun p =>
    decide (p.unitA ∈ members) && decide (p.unitB ∈ members))
  let totals := within.foldl (fun acc p =>
    p.signals.foldl (fun acc2 kv => svAdd acc2 kv.1 kv.2) acc) []
  if within.length = 0 then []
  else totals.map (fun kv => (kv.1, round4 (kv.2 / within.length)))

/-- The kind of a member for `kindMix` (`units_by_id.get(uid, {})
.get("kind", "unknown")`; a missing or empty kind reads as the
`unknown` default). -/
def kindForMix (ubi : Artifact CodeUnit) (uid : String) : String :=
  match ubi.lookup uid with
  | none => "unknown"
  | some u => if u.kind = "" then "unknown" else u.kind

/-- `enrich_cluster`: members, mean intra-cluster similarity, signal
breakdown, directory spread, kind mix, shared callees and consumer
overlap.  The id and rank score are filled in later by
`rank_clusters`. -/
def enrich_cluster (members : Finset String)
    (scored_pairs : List ScoredPair) (ubi : Artifact CodeUnit) : Cluster :=
  let member_list := members.sort (· ≤ ·)
  let weights := (scored_pairs.filter (fun p =>
    decide (p.unitA ∈ members) && decide (p.unitB ∈ members))).map (·.score)
  let avg_similarity : ℝ :=
    if weights.isEmpty then 0 else weights.sum / weights.length
  let directories := member_list.foldl (fun acc uid =>
      let fp := ((ubi.lookup uid).getD {}).filePath
      if containsSlash fp then
        let parts := pathParts fp
        if parts.contains "apps" then
          (if parts.indexOf "apps" + 1 < parts.length then
            insert (parts.getD (parts.indexOf "apps" + 1) "") acc
          else insert (rsplitDir fp) acc)
        else insert (parts.headD "") acc
      else acc) (∅ : Finset String)
  let kind_counts := member_list.foldl (fun acc uid =>
      bumpCount acc (kindForMix ubi uid)) []
  let callee_counts := member_list.foldl (fun acc uid =>
      let u := (ubi.lookup uid).getD {}
      (((calleeTargets u).filter (fun t => t != "")).dedup).foldl
        bumpCount acc) []
  let shared_callees := ((callee_counts.filter (fun kv =>
      (members.card : ℝ) / 2 < (kv.2 : ℝ))).map Prod.fst).mergeSort
    (fun x y => decide (x ≤ y))
  let consumer_sets := member_list.map (fun uid =>
      consumerIdSet ((ubi.lookup uid).getD {}))
  let contributions := (pairsOf consumer_sets).filterMap (fun ab =>
      if ab.1 ∪ ab.2 ≠ ∅ then
        some (((ab.1 ∩ ab.2).card : ℝ) / ((ab.1 ∪ ab.2).card : ℝ))
      else none)
  let consumer_overlap : ℝ :=
    if contributions.isEmpty then 0
    else contributions.sum / contributions.length
  { members := member_list
    memberCount := members.card
    avgSimilarity := round4 avg_similarity
    signalBreakdown := get_signal_breakdown members scored_pairs
    directorySpread := directories.card
    kindMix := kind_counts
    sharedCallees := shared_callees
    consumerOverlap := round4 consumer_overlap }

/-- `rank_clusters`: fill in the rank score
`memberCount * avgSimilarity * max(directorySpread, 1) * kindBonus`.
The source then sorts by descending rank score and labels the clusters
`cluster-001, ...`; ordering and labels are not consumed by any verified
claim. -/
def rank_clusters (clusters : List Cluster) : List Cluster :=
  clusters.map (fun c =>
    { c with rankScore := round4 ((c.memberCount : ℝ) * c.avgSimilarity
        * ((max c.directorySpread 1 : ℕ) : ℝ)
        * (if 1 < c.kindMix.length then 1.2 else 1)) })

/-- `compute_clusters`, from the communities onward.  Community detection
(`detect_communities`) delegates connected components and greedy
modularity to the external networkx library, so its output is taken here
as a parameter; whatever it returns, the stage keeps only communities of
size at least 2, enriches and ranks them. -/
def compute_clusters (communities : List (Finset String))
    (scored_pairs : List ScoredPair) (ubi : Artifact CodeUnit) :
    List Cluster :=
  rank_clusters ((communities.filter (fun c => 2 ≤ c.card)).map
    (fun c => enrich_cluster c scored_pairs ubi))

/-! ## io_utils.py -/

/-- File-system operations a stage can perform while writing. -/
inductive FileOp where
  | openWrite (path : String)
  | writeData (path : String) (payload : String)
  | closeFile (path : String)
  | renameFile (src dst : String)
deriving DecidableEq

/-- The file-system trace of `write_artifact`: it opens the destination
path itself with mode "w" (creating or truncating it in place),
serializes the JSON payload into that handle, and closes it. -/
def write_artifact (name : String) (payload : String)
    (output_dir : String) : List FileOp :=
  let path := output_dir ++ "/" ++ name
  [FileOp.openWrite path, FileOp.writeData path payload,
   FileOp.closeFile path]

/-- The write-to-temp-then-rename pattern the spec describes: some
distinct temporary path receives the payload and is then renamed over
the destination. -/
def atomicViaTempRename (trace : List FileOp) (dest : String) : Prop :=
  ∃ tmp, tmp ≠ dest ∧ (∃ payload, FileOp.writeData tmp payload ∈ trace)
    ∧ FileOp.renameFile tmp dest ∈ trace

/-- Whether an operation is a rename. -/
def FileOp.isRename : FileOp → Bool
  | .renameFile _ _ => true
  | _ => false

/-! ## Claim-level auxiliary definitions and concrete fixtures -/

/-- The app-level directory of a member exactly as the code computes it
(the characterization used by the amended claim C9): a path without a
slash contributes nothing; with a slash, the segment after the first
`apps` when `apps` is present and not the final segment, the prefix
before the last slash when `apps` is the final segment, and the first
segment otherwise. -/
def appDirectory (fp : String) : Option String :=
  if containsSlash fp then
    let parts := pathParts fp
    if parts.contains "apps" then
      if parts.indexOf "apps" + 1 < parts.length then
        some (parts.getD (parts.indexOf "apps" + 1) "")
      else some (rsplitDir fp)
    else some (parts.headD "")
  else none

/-- The app-level directory as the words of claim C9 describe it: the
segment following an `apps` segment when the path contains one,
otherwise the first path segment, including for a single-segment path
with no slash. -/
def claimAppDirectory (fp : String) : String :=
  let parts := pathParts fp
  if parts.contains "apps" then parts.getD (parts.indexOf "apps" + 1) ""
  else parts.headD ""

/-- Directory spread as the words of claim C9 describe it: the count of
distinct claim-level directories over all members. -/
def directorySpreadClaim (members : Finset String)
    (ubi : Artifact CodeUnit) : ℕ :=
  (((members.sort (· ≤ ·)).map (fun uid =>
    claimAppDirectory (((ubi.lookup uid).getD {}).filePath))).toFinset).card

/-- C1 fixture: the first of two identical unary functions. -/
def unitA : CodeUnit :=
  { id := "a", kind := "function", filePath := "src/a.ts",
    parameters := ["string"], returnType := "number" }

/-- C1 fixture: the second identical unary function, in another file. -/
def unitB : CodeUnit :=
  { id := "b", kind := "function", filePath := "src/b.ts",
    parameters := ["string"], returnType := "number" }

/-- C1 fixture corpus. -/
def corpusC1 : List CodeUnit := [unitA, unitB]

/-- C1 fixture artifacts, produced by the actual stages. -/
def ubiC1 : Artifact CodeUnit := units_by_id corpusC1

/-- C1 structural fingerprints. -/
def fpsC1 : Artifact Fingerprint := compute_fingerprints corpusC1

/-- C1 type signatures. -/
def tsC1 : Artifact TypeSig := compute_type_signatures corpusC1

/-- C1 call vectors. -/
def cgC1 : Artifact CallVec := compute_call_vectors corpusC1

/-- C1 dependency context. -/
def dcC1 : Artifact DepCtx := compute_dep_context corpusC1

/-- C2 fixture: a unit whose consumers split evenly over four kinds. -/
def uC2 : CodeUnit :=
  { id := "u",
    consumerKinds := [("component", 1), ("hook", 1), ("function", 1),
      ("method", 1)],
    consumerCount := some 4 }

/-- C3 fixture: a one-unit corpus importing a single source, so that the
IDF of that source is ln(1/1) = 0. -/
def uC3 : CodeUnit := { id := "u", imports := ["x"] }

/-- C9 fixture: two units whose file paths have no slash. -/
def ubiC9 : Artifact CodeUnit :=
  [("u", { id := "u", filePath := "alpha" }),
   ("v", { id := "v", filePath := "beta" })]

/-- C10 fixture: two units with no consumers. -/
def corpusC10 : List CodeUnit :=
  [{ id := "x" }, { id := "y" }]

/-- C3 fixture: a unit with an import, a store access and a
co-occurrence, for instantiating the corrected entry bounds. -/
def uC3w : CodeUnit :=
  { id := "w", imports := ["a"], storeAccess := ["s"],
    coOccurrences := [("v", 1)] }

/-! ## Theorems -/

/-- C4 counterexample: the trace of `write_artifact` for a concrete
artifact contains no write to a temporary path followed by a rename over
the destination; the claimed atomic write-temp-then-rename pattern is
absent. -/
theorem c4_counterexample :
    atomicViaTempRename
      (write_artifact "similarity-matrix.json" "payload" "out")
      ("out" ++ "/" ++ "similarity-matrix.json") = False := by
  simp only [eq_iff_iff, iff_false]
  rintro ⟨tmp, _, _, hr⟩
  simp [write_artifact] at hr

/-- C4 amended: `write_artifact` is not atomic; it opens the destination
path itself (creating or truncating it in place), serializes the payload
into that very path, and performs no rename at all, so rerunning a stage
rewrites the artifact file in place and a partially written file is
observable at the artifact path during the write. -/
theorem c4_write_artifact_direct (name payload output_dir : String) :
    FileOp.openWrite (output_dir ++ "/" ++ name)
        ∈ write_artifact name payload output_dir
    ∧ FileOp.writeData (output_dir ++ "/" ++ name) payload
        ∈ write_artifact name payload output_dir
    ∧ (write_artifact name payload output_dir).all
        (fun op => !op.isRename) = true := by
  refine ⟨?_, ?_, ?_⟩ <;> simp [write_artifact, FileOp.isRename]

/-- C8: whatever community detection returns, every cluster written by
the clustering stage has at least 2 members (communities of size below 2
are discarded before enrichment, and enrichment and ranking preserve the
member count). -/
theorem c8_min_cluster_size (communities : List (Finset String))
    (scored_pairs : List ScoredPair) (ubi : Artifact CodeUnit) :
    ∀ cl ∈ compute_clusters communities scored_pairs ubi,
      2 ≤ cl.memberCount := by
  intro cl hcl
  simp only [compute_clusters, rank_clusters, List.map_map,
    List.mem_map, List.mem_filter, Function.comp] at hcl
  obtain ⟨c, ⟨-, hcard⟩, rfl⟩ := hcl
  simpa [enrich_cluster] using of_decide_eq_true hcard

/-- C8 witness: a concrete two-member community survives with member
count at least 2. -/
theorem c8_min_cluster_size_witness :
    2 ≤ ((compute_clusters [({"a", "b"} : Finset String)] [] []).headD
      {}).memberCount := by
  refine c8_min_cluster_size [({"a", "b"} : Finset String)] [] [] _ ?_
  simp [compute_clusters, rank_clusters]

/-- Renormalizing a weight dict divides its sum. -/
theorem sumVals_map_div (l : List (String × ℝ)) (t : ℝ) :
    sumVals (l.map (fun kv => (kv.1, kv.2 / t))) = sumVals l / t := by
  induction l with
  | nil => simp [sumVals]
  | cons kv rest ih => simp [sumVals, add_div] at ih ⊢; simp [ih]

/-- Sum over a cons cell. -/
theorem sumVals_cons (kv : String × ℝ) (l : List (String × ℝ)) :
    sumVals (kv :: l) = kv.2 + sumVals l := by
  simp [sumVals]

/-- A dict of nonnegative values has a nonnegative sum. -/
theorem sumVals_nonneg (l : List (String × ℝ))
    (h : ∀ kv ∈ l, 0 ≤ kv.2) : 0 ≤ sumVals l := by
  induction l with
  | nil => simp [sumVals]
  | cons kv rest ih =>
      rw [sumVals_cons]
      have h1 := h kv (by simp)
      have h2 := ih (fun x hx => h x (by simp [hx]))
      linarith

/-- A dict of nonnegative values containing a positive entry has a
positive sum. -/
theorem sumVals_pos_of_mem (l : List (String × ℝ))
    (h : ∀ kv ∈ l, 0 ≤ kv.2) (kv : String × ℝ) (hm : kv ∈ l)
    (hp : 0 < kv.2) : 0 < sumVals l := by
  induction l with
  | nil => simp at hm
  | cons a rest ih =>
      rw [sumVals_cons]
      have ha := h a (by simp)
      rcases List.mem_cons.mp hm with rfl | hm2
      · have := sumVals_nonneg rest (fun x hx => h x (by simp [hx]))
        linarith
      · have := ih (fun x hx => h x (by simp [hx])) hm2
        linarith

/-- The with-embeddings table sums to 1. -/
theorem sum_WITH : sumVals WEIGHTS_WITH_EMBEDDINGS = 1 := by
  norm_num [sumVals, WEIGHTS_WITH_EMBEDDINGS]

/-- The without-embeddings table sums to 1. -/
theorem sum_WITHOUT : sumVals WEIGHTS_WITHOUT_EMBEDDINGS = 1 := by
  norm_num [sumVals, WEIGHTS_WITHOUT_EMBEDDINGS]

/-- All base weights with embeddings are nonnegative. -/
theorem nonneg_WITH : ∀ kv ∈ WEIGHTS_WITH_EMBEDDINGS, 0 ≤ kv.2 := by
  intro kv h
  fin_cases h <;> norm_num

/-- All base weights without embeddings are nonnegative. -/
theorem nonneg_WITHOUT : ∀ kv ∈ WEIGHTS_WITHOUT_EMBEDDINGS, 0 ≤ kv.2 := by
  intro kv h
  fin_cases h <;> norm_num

/-- Every adapted (pre-renormalization) weight is nonnegative. -/
theorem adapted_weights_nonneg (e p : Bool) (ka kb : String) :
    ∀ kv ∈ adapted_weights e p ka kb, 0 ≤ kv.2 := by
  intro kv hkv
  unfold adapted_weights at hkv
  rw [List.mem_filter] at hkv
  obtain ⟨hmem, -⟩ := hkv
  cases p with
  | false =>
      simp only [Bool.false_eq_true, if_false] at hmem
      cases e with
      | false => simp only [Bool.false_eq_true, if_false] at hmem
                 exact nonneg_WITHOUT kv hmem
      | true => simp only [if_true] at hmem
                exact nonneg_WITH kv hmem
  | true =>
      simp only [if_true] at hmem
      rcases List.mem_append.mp hmem with hL | hR
      · obtain ⟨kv0, hkv0, rfl⟩ := List.mem_map.mp hL
        cases e with
        | false =>
            simp only [Bool.false_eq_true, if_false] at hkv0 ⊢
            refine mul_nonneg (nonneg_WITHOUT kv0 hkv0) ?_
            rw [sum_WITHOUT]; norm_num
        | true =>
            simp only [if_true] at hkv0 ⊢
            refine mul_nonneg (nonneg_WITH kv0 hkv0) ?_
            rw [sum_WITH]; norm_num
      · simp only [List.mem_singleton] at hR
        rw [hR]; norm_num

/-- The `typeSignature` weight is never dropped and stays positive. -/
theorem ts_mem_adapted (e p : Bool) (ka kb : String) :
    ∃ w, ("typeSignature", w) ∈ adapted_weights e p ka kb ∧ 0 < w := by
  unfold adapted_weights
  cases e <;> cases p
  · exact ⟨0.16, List.mem_filter.mpr
      ⟨by simp [WEIGHTS_WITHOUT_EMBEDDINGS], by simp⟩, by norm_num⟩
  · refine ⟨0.16 * ((sumVals WEIGHTS_WITHOUT_EMBEDDINGS - 0.05)
        / sumVals WEIGHTS_WITHOUT_EMBEDDINGS), List.mem_filter.mpr
      ⟨?_, by simp⟩, ?_⟩
    · simp only [Bool.false_eq_true, if_false, if_true]
      refine List.mem_append_left _ (List.mem_map.mpr
        ⟨("typeSignature", 0.16), by simp [WEIGHTS_WITHOUT_EMBEDDINGS], rfl⟩)
    · rw [sum_WITHOUT]; norm_num
  · exact ⟨0.12, List.mem_filter.mpr
      ⟨by simp [WEIGHTS_WITH_EMBEDDINGS], by simp⟩, by norm_num⟩
  · refine ⟨0.12 * ((sumVals WEIGHTS_WITH_EMBEDDINGS - 0.05)
        / sumVals WEIGHTS_WITH_EMBEDDINGS), List.mem_filter.mpr
      ⟨?_, by simp⟩, ?_⟩
    · simp only [if_true]
      refine List.mem_append_left _ (List.mem_map.mpr
        ⟨("typeSignature", 0.12), by simp [WEIGHTS_WITH_EMBEDDINGS], rfl⟩)
    · rw [sum_WITH]; norm_num

/-- The adapted weight dict has a positive total. -/
theorem sumVals_adapted_pos (e p : Bool) (ka kb : String) :
    0 < sumVals (adapted_weights e p ka kb) := by
  obtain ⟨w, hmem, hw⟩ := ts_mem_adapted e p ka kb
  exact sumVals_pos_of_mem _ (adapted_weights_nonneg e p ka kb) _ hmem hw

/-- The adapted weight dict always sums to exactly 1: the filtered table
keeps a positive total in every combination, and the final
renormalization divides by that total. -/
theorem sum_get_weights (has_emb has_pat : Bool) (kind_a kind_b : String) :
    sumVals (get_weights has_emb has_pat kind_a kind_b) = 1 := by
  have hpos := sumVals_adapted_pos has_emb has_pat kind_a kind_b
  show sumVals (if 0 < sumVals (adapted_weights has_emb has_pat kind_a
      kind_b) then (adapted_weights has_emb has_pat kind_a kind_b).map
      (fun kv => (kv.1, kv.2 / sumVals (adapted_weights has_emb has_pat
        kind_a kind_b))) else adapted_weights has_emb has_pat kind_a
      kind_b) = 1
  rw [if_pos hpos, sumVals_map_div, div_self hpos.ne']

/-- Every renormalized weight is nonnegative. -/
theorem get_weights_nonneg (e p : Bool) (ka kb : String) :
    ∀ kv ∈ get_weights e p ka kb, 0 ≤ kv.2 := by
  intro kv hkv
  have hpos := sumVals_adapted_pos e p ka kb
  have hkv2 : kv ∈ (adapted_weights e p ka kb).map
      (fun kv => (kv.1, kv.2 / sumVals (adapted_weights e p ka kb))) := by
    rw [show get_weights e p ka kb = if 0 < sumVals (adapted_weights e p
        ka kb) then (adapted_weights e p ka kb).map (fun kv => (kv.1,
        kv.2 / sumVals (adapted_weights e p ka kb))) else
        adapted_weights e p ka kb from rfl, if_pos hpos] at hkv
    exact hkv
  obtain ⟨kv0, hkv0, rfl⟩ := List.mem_map.mp hkv2
  exact div_nonneg (adapted_weights_nonneg e p ka kb kv0 hkv0) hpos.le

/-- Cosine similarity is nonnegative (it returns 0 or a value clamped
below by 0). -/
theorem cosine_sim_nonneg {κ : Type} [DecidableEq κ] (a b : SparseVec κ) :
    0 ≤ cosine_sim a b := by
  unfold cosine_sim
  split
  · norm_num
  · dsimp only
    split
    · norm_num
    · exact le_max_left 0 _

/-- Cosine similarity is at most 1 (it returns 0 or a value clamped
above by 1). -/
theorem cosine_sim_le_one {κ : Type} [DecidableEq κ] (a b : SparseVec κ) :
    cosine_sim a b ≤ 1 := by
  unfold cosine_sim
  split
  · norm_num
  · dsimp only
    split
    · norm_num
    · exact max_le (by norm_num) (min_le_left _ _)

/-- Jaccard similarity is nonnegative. -/
theorem jaccard_sim_nonneg {κ : Type} [DecidableEq κ] (a b : Finset κ) :
    0 ≤ jaccard_sim a b := by
  unfold jaccard_sim
  split
  · norm_num
  · dsimp only
    split
    · norm_num
    · positivity

/-- Jaccard similarity is at most 1: the intersection is never larger
than the union. -/
theorem jaccard_sim_le_one {κ : Type} [DecidableEq κ] (a b : Finset κ) :
    jaccard_sim a b ≤ 1 := by
  unfold jaccard_sim
  split
  · norm_num
  · dsimp only
    split
    · norm_num
    · rename_i hu
      rw [div_le_one (by exact_mod_cast Nat.pos_of_ne_zero hu)]
      exact_mod_cast Finset.card_le_card
        (Finset.inter_subset_union)

/-- The index-paired difference count is bounded by either length. -/
theorem countDiffs_le_min (a b : List ℤ) :
    countDiffs a b ≤ min a.length b.length := by
  calc countDiffs a b ≤ (a.zip b).length := List.countP_le_length _
  _ = min a.length b.length := List.length_zip _ _

/-- Normalized Hamming similarity is nonnegative. -/
theorem normalized_hamming_nonneg (a b : List ℤ) :
    0 ≤ normalized_hamming a b := by
  unfold normalized_hamming
  split
  · norm_num
  · split
    · rename_i hne hlen
      dsimp only
      have hd := countDiffs_le_min a b
      have hmax : 0 < max a.length b.length := by
        rcases Nat.eq_zero_or_pos (max a.length b.length) with h0 | h
        · exfalso
          have ha : a.length = 0 := by omega
          have hb : b.length = 0 := by omega
          exact hlen (by rw [ha, hb])
        · exact h
      have hm : (max a.length b.length - min a.length b.length)
          + countDiffs a b ≤ max a.length b.length := by omega
      have h1 : (((max a.length b.length - min a.length b.length)
          + countDiffs a b : ℕ) : ℝ) / (max a.length b.length : ℕ) ≤ 1 := by
        rw [div_le_one (by exact_mod_cast hmax)]
        exact_mod_cast hm
      linarith
    · rename_i hne hlen
      have hd := countDiffs_le_min a b
      have hla : 0 < a.length := by
        rcases Nat.eq_zero_or_pos a.length with h0 | h
        · exfalso
          have hb0 : b.length = 0 := by omega
          exact hne ⟨List.eq_nil_of_length_eq_zero h0,
            List.eq_nil_of_length_eq_zero hb0⟩
        · exact h
      have h1 : ((countDiffs a b : ℕ) : ℝ) / (a.length : ℕ) ≤ 1 := by
        rw [div_le_one (by exact_mod_cast hla)]
        have : countDiffs a b ≤ a.length := by omega
        exact_mod_cast this
      linarith

/-- Normalized Hamming similarity is at most 1. -/
theorem normalized_hamming_le_one (a b : List ℤ) :
    normalized_hamming a b ≤ 1 := by
  unfold normalized_hamming
  split
  · norm_num
  · split
    · dsimp only
      have : (0:ℝ) ≤ (((max a.length b.length - min a.length b.length)
          + countDiffs a b : ℕ) : ℝ) / (max a.length b.length : ℕ) := by
        positivity
      linarith
    · have : (0:ℝ) ≤ ((countDiffs a b : ℕ) : ℝ) / (a.length : ℕ) := by
        positivity
      linarith

/-- Tree-edit similarity is nonnegative. -/
theorem tree_edit_nonneg (ta tb : Option Jsx) :
    0 ≤ tree_edit_distance_normalized ta tb := by
  unfold tree_edit_distance_normalized
  split
  · norm_num
  · dsimp only
    split
    · norm_num
    · exact le_min (by norm_num) (by positivity)

/-- Tree-edit similarity is at most 1. -/
theorem tree_edit_le_one (ta tb : Option Jsx) :
    tree_edit_distance_normalized ta tb ≤ 1 := by
  unfold tree_edit_distance_normalized
  split
  · norm_num
  · dsimp only
    split
    · norm_num
    · exact min_le_left _ _

/-- The semantic signal lies in the unit interval. -/
theorem sig_semantic_bounds (emb : Artifact (List ℝ)) (a b : String) :
    0 ≤ sig_semantic emb a b ∧ sig_semantic emb a b ≤ 1 := by
  unfold sig_semantic
  cases emb.lookup a <;> cases emb.lookup b <;>
    simp only [] <;>
    first
      | exact ⟨le_refl 0, by norm_num⟩
      | exact ⟨cosine_sim_nonneg _ _, cosine_sim_le_one _ _⟩

/-- The type-signature signal lies in the unit interval. -/
theorem sig_type_signature_bounds (ts : Artifact TypeSig) (a b : String) :
    0 ≤ sig_type_signature ts a b ∧ sig_type_signature ts a b ≤ 1 := by
  unfold sig_type_signature
  cases ts.lookup a <;> cases ts.lookup b <;>
    simp only [] <;> try exact ⟨le_refl 0, by norm_num⟩
  split <;> [skip; split <;> [skip; split]] <;> norm_num

/-- The JSX-structure signal lies in the unit interval. -/
theorem sig_jsx_structure_bounds (fps : Artifact Fingerprint)
    (ubi : Artifact CodeUnit) (a b : String) :
    0 ≤ sig_jsx_structure fps ubi a b ∧ sig_jsx_structure fps ubi a b ≤ 1 := by
  unfold sig_jsx_structure
  dsimp only
  cases ((ubi.lookup a).getD {} : CodeUnit).jsxTree <;>
    cases ((ubi.lookup b).getD {} : CodeUnit).jsxTree <;>
    dsimp only <;>
    try exact ⟨le_refl 0, by norm_num⟩
  split
  · norm_num
  split
  · norm_num
  exact ⟨tree_edit_nonneg _ _, tree_edit_le_one _ _⟩

/-- The hook-profile signal lies in the unit interval. -/
theorem sig_hook_profile_bounds (fps : Artifact Fingerprint)
    (a b : String) :
    0 ≤ sig_hook_profile fps a b ∧ sig_hook_profile fps a b ≤ 1 := by
  unfold sig_hook_profile
  dsimp only
  split
  · norm_num
  · exact ⟨cosine_sim_nonneg _ _, cosine_sim_le_one _ _⟩

/-- The imports signal lies in the unit interval. -/
theorem sig_imports_bounds (fps : Artifact Fingerprint) (a b : String) :
    0 ≤ sig_imports fps a b ∧ sig_imports fps a b ≤ 1 :=
  ⟨cosine_sim_nonneg _ _, cosine_sim_le_one _ _⟩

/-- The data-access signal lies in the unit interval. -/
theorem sig_data_access_bounds (fps : Artifact Fingerprint)
    (a b : String) :
    0 ≤ sig_data_access fps a b ∧ sig_data_access fps a b ≤ 1 := by
  unfold sig_data_access
  dsimp only
  split
  · norm_num
  · exact ⟨jaccard_sim_nonneg _ _, jaccard_sim_le_one _ _⟩

/-- The behavior signal lies in the unit interval. -/
theorem sig_behavior_bounds (fps : Artifact Fingerprint) (a b : String) :
    0 ≤ sig_behavior fps a b ∧ sig_behavior fps a b ≤ 1 := by
  unfold sig_behavior
  dsimp only
  split
  · norm_num
  · exact ⟨normalized_hamming_nonneg _ _, normalized_hamming_le_one _ _⟩

/-- The callee-set signal lies in the unit interval. -/
theorem sig_callee_set_bounds (cg : Artifact CallVec) (a b : String) :
    0 ≤ sig_callee_set cg a b ∧ sig_callee_set cg a b ≤ 1 :=
  ⟨cosine_sim_nonneg _ _, cosine_sim_le_one _ _⟩

/-- The call-sequence signal lies in the unit interval. -/
theorem sig_call_sequence_bounds (cg : Artifact CallVec) (a b : String) :
    0 ≤ sig_call_sequence cg a b ∧ sig_call_sequence cg a b ≤ 1 := by
  unfold sig_call_sequence
  dsimp only
  split
  · norm_num
  · split
    · norm_num
    · rename_i hcom _
      set sa := ((cg.lookup a).getD {}).sequenceHashes with hsa
      set sb := ((cg.lookup b).getD {}).sequenceHashes with hsb
      set common := (sa.map Prod.fst).toFinset ∩ (sb.map Prod.fst).toFinset
        with hc
      have hcard : common.card ≤ sa.length := by
        calc common.card ≤ (sa.map Prod.fst).toFinset.card :=
              Finset.card_le_card Finset.inter_subset_left
        _ ≤ (sa.map Prod.fst).length := (sa.map Prod.fst).toFinset_card_le
        _ = sa.length := List.length_map _ _
      have hlen : 0 < sa.length := by
        rcases Finset.nonempty_iff_ne_empty.mpr hcom with ⟨x, hx⟩
        have hx1 : x ∈ (sa.map Prod.fst).toFinset :=
          Finset.mem_of_mem_inter_left hx
        rw [List.mem_toFinset] at hx1
        have := List.exists_of_mem_map hx1
        obtain ⟨kv, hkv, -⟩ := this
        have : sa ≠ [] := by
          intro h0
          rw [h0] at hkv
          exact (List.not_mem_nil kv) hkv
        exact List.length_pos.mpr this
      have hmax : 0 < (max sa.length sb.length : ℕ) := by omega
      constructor
      · positivity
      · rw [div_le_one (by exact_mod_cast hmax)]
        have h1 : (common.card : ℝ) ≤ ((max sa.length sb.length : ℕ) : ℝ) := by
          exact_mod_cast le_trans hcard (le_max_left _ _)
        have h2 : (0:ℝ) ≤ (common.card : ℝ) := by positivity
        nlinarith

/-- The consumer-set signal lies in the unit interval. -/
theorem sig_consumer_set_bounds (ubi : Artifact CodeUnit) (a b : String) :
    0 ≤ sig_consumer_set ubi a b ∧ sig_consumer_set ubi a b ≤ 1 := by
  unfold sig_consumer_set
  dsimp only
  split
  · norm_num
  · split
    · split
      · refine ⟨le_min (by norm_num) ?_, min_le_left _ _⟩
        have := jaccard_sim_nonneg (consumerIdSet ((ubi.lookup a).getD {}))
          (consumerIdSet ((ubi.lookup b).getD {}))
        nlinarith
      · exact ⟨jaccard_sim_nonneg _ _, jaccard_sim_le_one _ _⟩
    · exact ⟨jaccard_sim_nonneg _ _, jaccard_sim_le_one _ _⟩

/-- The co-occurrence signal lies in the unit interval. -/
theorem sig_cooccurrence_bounds (dc : Artifact DepCtx) (a b : String) :
    0 ≤ sig_cooccurrence dc a b ∧ sig_cooccurrence dc a b ≤ 1 :=
  ⟨cosine_sim_nonneg _ _, cosine_sim_le_one _ _⟩

/-- The neighborhood signal lies in the unit interval. -/
theorem sig_neighborhood_bounds (dc : Artifact DepCtx) (a b : String) :
    0 ≤ sig_neighborhood dc a b ∧ sig_neighborhood dc a b ≤ 1 := by
  unfold sig_neighborhood
  dsimp only
  split
  · norm_num
  · split <;> norm_num

/-- The structural-pattern signal lies in the unit interval. -/
theorem sig_structural_pattern_bounds (pats : Artifact (List String))
    (a b : String) :
    0 ≤ sig_structural_pattern pats a b
      ∧ sig_structural_pattern pats a b ≤ 1 := by
  unfold sig_structural_pattern
  dsimp only
  split
  · norm_num
  · exact ⟨jaccard_sim_nonneg _ _, jaccard_sim_le_one _ _⟩

/-- Membership in a conditional singleton block. -/
theorem mem_ite_singleton {α : Type} {c : Prop} [Decidable c] {x kv : α} :
    kv ∈ (if c then [x] else []) ↔ c ∧ kv = x := by
  split <;> simp_all

/-- Every signal value computed for a pair lies in the unit interval. -/
theorem computeSignals_bounds (w : List (String × ℝ))
    (ubi : Artifact CodeUnit) (fps : Artifact Fingerprint)
    (ts : Artifact TypeSig) (cg : Artifact CallVec) (dc : Artifact DepCtx)
    (emb : Artifact (List ℝ)) (pats : Artifact (List String))
    (a b : String) :
    ∀ kv ∈ computeSignals w ubi fps ts cg dc emb pats a b,
      0 ≤ kv.2 ∧ kv.2 ≤ 1 := by
  intro kv hkv
  simp only [computeSignals, List.mem_append, mem_ite_singleton] at hkv
  rcases hkv with
    ((((((((((((⟨_, rfl⟩ | ⟨_, rfl⟩) | ⟨_, rfl⟩) | ⟨_, rfl⟩) | ⟨_, rfl⟩) | ⟨_, rfl⟩) | ⟨_, rfl⟩) | ⟨_, rfl⟩) | ⟨_, rfl⟩) | ⟨_, rfl⟩) | ⟨_, rfl⟩) | ⟨_, rfl⟩) | ⟨_, rfl⟩)
  exacts [sig_semantic_bounds emb a b, sig_type_signature_bounds ts a b,
    sig_jsx_structure_bounds fps ubi a b, sig_hook_profile_bounds fps a b,
    sig_imports_bounds fps a b, sig_data_access_bounds fps a b,
    sig_behavior_bounds fps a b, sig_callee_set_bounds cg a b,
    sig_call_sequence_bounds cg a b, sig_consumer_set_bounds ubi a b,
    sig_cooccurrence_bounds dc a b, sig_neighborhood_bounds dc a b,
    sig_structural_pattern_bounds pats a b]

/-- Keys of a conditional singleton block. -/
theorem ite_singleton_keys_sublist {c : Prop} [Decidable c] (name : String)
    (v : ℝ) : ((if c then [(name, v)] else []).map Prod.fst).Sublist
      [name] := by
  by_cases h : c
  · simp [h]
  · simp [h]

/-- The signal names are drawn, in order, from the fixed thirteen-name
sequence of `compute_scores`. -/
theorem computeSignals_names_sublist (w : List (String × ℝ))
    (ubi : Artifact CodeUnit) (fps : Artifact Fingerprint)
    (ts : Artifact TypeSig) (cg : Artifact CallVec) (dc : Artifact DepCtx)
    (emb : Artifact (List ℝ)) (pats : Artifact (List String))
    (a b : String) :
    ((computeSignals w ubi fps ts cg dc emb pats a b).map
      Prod.fst).Sublist
      ["semantic", "typeSignature", "jsxStructure", "hookProfile",
       "imports", "dataAccess", "behavior", "calleeSet", "callSequence",
       "consumerSet", "coOccurrence", "neighborhood",
       "structuralPattern"] := by
  simp only [computeSignals, List.map_append]
  exact (((((((((((((ite_singleton_keys_sublist _ _).append (ite_singleton_keys_sublist _ _)).append (ite_singleton_keys_sublist _ _)).append (ite_singleton_keys_sublist _ _)).append (ite_singleton_keys_sublist _ _)).append (ite_singleton_keys_sublist _ _)).append (ite_singleton_keys_sublist _ _)).append (ite_singleton_keys_sublist _ _)).append (ite_singleton_keys_sublist _ _)).append (ite_singleton_keys_sublist _ _)).append (ite_singleton_keys_sublist _ _)).append (ite_singleton_keys_sublist _ _)).append (ite_singleton_keys_sublist _ _))

/-- The signal names of a pair are pairwise distinct. -/
theorem computeSignals_names_nodup (w : List (String × ℝ))
    (ubi : Artifact CodeUnit) (fps : Artifact Fingerprint)
    (ts : Artifact TypeSig) (cg : Artifact CallVec) (dc : Artifact DepCtx)
    (emb : Artifact (List ℝ)) (pats : Artifact (List String))
    (a b : String) :
    ((computeSignals w ubi fps ts cg dc emb pats a b).map
      Prod.fst).Nodup :=
  (computeSignals_names_sublist w ubi fps ts cg dc emb pats a b).nodup
    (by decide)

/-- A successful lookup points at an entry of the dict. -/
theorem lookup_mem {κ α : Type} [DecidableEq κ] (l : List (κ × α)) (k : κ)
    (v : α) (h : l.lookup k = some v) : (k, v) ∈ l := by
  induction l with
  | nil => simp [List.lookup] at h
  | cons kv rest ih =>
      by_cases hk : k = kv.1
      · subst hk
        simp only [List.lookup, beq_self_eq_true] at h
        obtain rfl : kv.2 = v := by simpa using h
        simp
      · simp only [List.lookup, beq_eq_false_iff_ne.mpr hk] at h
        exact List.mem_cons_of_mem _ (ih h)

/-- Looked-up weights of a nonnegative dict are nonnegative. -/
theorem lookup_getD_nonneg (w : List (String × ℝ))
    (hw : ∀ kv ∈ w, 0 ≤ kv.2) (k : String) :
    0 ≤ (w.lookup k).getD 0 := by
  cases hl : w.lookup k with
  | none => simp
  | some v => simpa using hw _ (lookup_mem w k v hl)

/-- A nodup-keyed dict sums to the sum of its looked-up values over its
key set. -/
theorem sumVals_eq_sum_keys (w : List (String × ℝ))
    (hnd : (w.map Prod.fst).Nodup) :
    sumVals w = ∑ k ∈ (w.map Prod.fst).toFinset, (w.lookup k).getD 0 := by
  induction w with
  | nil => simp [sumVals]
  | cons kv rest ih =>
      simp only [List.map_cons, List.nodup_cons] at hnd
      obtain ⟨hk, hrest⟩ := hnd
      rw [sumVals_cons, ih hrest, List.map_cons, List.toFinset_cons,
        Finset.sum_insert (by simpa using hk)]
      congr 1
      · simp [List.lookup]
      · refine Finset.sum_congr rfl fun x hx => ?_
        have hxk : x ≠ kv.1 := by
          rintro rfl
          exact hk (by simpa using hx)
        simp [List.lookup, beq_eq_false_iff_ne.mpr hxk]

/-- Summing looked-up weights over distinct names never exceeds the
total of a nonnegative nodup-keyed weight dict. -/
theorem sum_lookup_le (w : List (String × ℝ))
    (hnd : (w.map Prod.fst).Nodup) (hw : ∀ kv ∈ w, 0 ≤ kv.2)
    (names : List String) (hnames : names.Nodup) :
    (names.map (fun n => (w.lookup n).getD 0)).sum ≤ sumVals w := by
  rw [← List.sum_toFinset _ hnames, sumVals_eq_sum_keys w hnd]
  have hsub : names.toFinset.filter
      (fun n => n ∈ (w.map Prod.fst).toFinset) ⊆
      (w.map Prod.fst).toFinset := fun x hx =>
    (Finset.mem_filter.mp hx).2
  calc ∑ n ∈ names.toFinset, (w.lookup n).getD 0
      = ∑ n ∈ names.toFinset.filter
          (fun n => n ∈ (w.map Prod.fst).toFinset),
          (w.lookup n).getD 0 := by
        refine (Finset.sum_subset (Finset.filter_subset _ _)
          fun x hx hnx => ?_).symm
        cases hl : w.lookup x with
        | none => simp
        | some v =>
            exfalso
            refine hnx (Finset.mem_filter.mpr ⟨hx, ?_⟩)
            rw [List.mem_toFinset]
            exact List.mem_map.mpr ⟨(x, v), lookup_mem w x v hl, rfl⟩
    _ ≤ ∑ k ∈ (w.map Prod.fst).toFinset, (w.lookup k).getD 0 :=
        Finset.sum_le_sum_of_subset_of_nonneg hsub
          fun i _ _ => lookup_getD_nonneg w hw i

/-- The weighted sum of nonnegative signals is nonnegative. -/
theorem scoreOf_nonneg (w signals : List (String × ℝ))
    (hw : ∀ kv ∈ w, 0 ≤ kv.2) (hs : ∀ kv ∈ signals, 0 ≤ kv.2) :
    0 ≤ scoreOf w signals := by
  unfold scoreOf
  apply List.sum_nonneg
  intro x hx
  obtain ⟨kv, hkv, rfl⟩ := List.mem_map.mp hx
  exact mul_nonneg (lookup_getD_nonneg w hw kv.1) (hs kv hkv)

/-- The weighted sum of at-most-one signals is bounded by the sum of the
looked-up weights. -/
theorem scoreOf_le_names (w signals : List (String × ℝ))
    (hw : ∀ kv ∈ w, 0 ≤ kv.2) (hs : ∀ kv ∈ signals, kv.2 ≤ 1) :
    scoreOf w signals
      ≤ ((signals.map Prod.fst).map
          (fun n => (w.lookup n).getD 0)).sum := by
  unfold scoreOf
  induction signals with
  | nil => simp
  | cons kv rest ih =>
      simp only [List.map_cons, List.sum_cons]
      have h1 : (w.lookup kv.1).getD 0 * kv.2 ≤ (w.lookup kv.1).getD 0 := by
        have h0 := lookup_getD_nonneg w hw kv.1
        nlinarith [hs kv (by simp)]
      have h2 := ih (fun x hx => hs x (by simp [hx]))
      linarith

/-- Python `round(x, 4)` keeps the unit interval. -/
theorem round4_bounds (x : ℝ) (h0 : 0 ≤ x) (h1 : x ≤ 1) :
    0 ≤ round4 x ∧ round4 x ≤ 1 := by
  have e1 : (0:ℤ) ≤ round (x * 10000) := by
    rw [round_eq]
    have h : (0:ℤ) = ⌊(0:ℝ) + 1/2⌋ := by norm_num
    rw [h]
    exact Int.floor_le_floor (by linarith)
  have e2 : round (x * 10000) ≤ 10000 := by
    rw [round_eq]
    calc ⌊x * 10000 + 1/2⌋ ≤ ⌊(10000:ℝ) + 1/2⌋ :=
          Int.floor_le_floor (by linarith)
    _ = 10000 := by norm_num
  constructor
  · exact div_nonneg (by exact_mod_cast e1) (by norm_num)
  · rw [round4, div_le_one (by norm_num)]
    exact_mod_cast e2

/-- The mean of a list of unit-interval reals (0 for the empty list)
stays in the unit interval. -/
theorem list_mean_bounds (l : List ℝ) (h : ∀ x ∈ l, 0 ≤ x ∧ x ≤ 1) :
    0 ≤ (if l.isEmpty then (0:ℝ) else l.sum / l.length)
    ∧ (if l.isEmpty then (0:ℝ) else l.sum / l.length) ≤ 1 := by
  split
  · norm_num
  · rename_i hne
    have hlen : 0 < l.length := by
      cases l
      · simp at hne
      · simp
    constructor
    · exact div_nonneg (List.sum_nonneg fun x hx => (h x hx).1)
        (by positivity)
    · rw [div_le_one (by exact_mod_cast hlen)]
      calc l.sum ≤ l.length • (1:ℝ) :=
            List.sum_le_card_nsmul l 1 fun x hx => (h x hx).2
      _ = l.length := by simp

/-- Renormalization does not change the key sequence. -/
theorem get_weights_keys_eq (e p : Bool) (ka kb : String) :
    (get_weights e p ka kb).map Prod.fst
      = (adapted_weights e p ka kb).map Prod.fst := by
  show ((if 0 < sumVals (adapted_weights e p ka kb) then
      (adapted_weights e p ka kb).map (fun kv =>
        (kv.1, kv.2 / sumVals (adapted_weights e p ka kb)))
      else adapted_weights e p ka kb).map Prod.fst) = _
  split
  · rw [List.map_map]
    rfl
  · rfl

/-- The adapted weight dict has pairwise-distinct keys. -/
theorem adapted_keys_nodup (e p : Bool) (ka kb : String) :
    ((adapted_weights e p ka kb).map Prod.fst).Nodup := by
  unfold adapted_weights
  refine List.Sublist.nodup
    (List.Sublist.map Prod.fst (List.filter_sublist _)) ?_
  cases p <;> cases e <;> decide

/-- The renormalized weight dict has pairwise-distinct keys. -/
theorem get_weights_keys_nodup (e p : Bool) (ka kb : String) :
    ((get_weights e p ka kb).map Prod.fst).Nodup := by
  rw [get_weights_keys_eq]
  exact adapted_keys_nodup e p ka kb

/-- The weighted sum over the signal dict of a pair, using the adapted
weight dict, lies in the unit interval. -/
theorem scoreOf_getWeights_bounds (e p : Bool) (ka kb : String)
    (ubi : Artifact CodeUnit) (fps : Artifact Fingerprint)
    (ts : Artifact TypeSig) (cg : Artifact CallVec) (dc : Artifact DepCtx)
    (emb : Artifact (List ℝ)) (pats : Artifact (List String))
    (a b : String) :
    0 ≤ scoreOf (get_weights e p ka kb)
        (computeSignals (get_weights e p ka kb) ubi fps ts cg dc emb pats
          a b)
    ∧ scoreOf (get_weights e p ka kb)
        (computeSignals (get_weights e p ka kb) ubi fps ts cg dc emb pats
          a b) ≤ 1 := by
  have hw := get_weights_nonneg e p ka kb
  have hb := computeSignals_bounds (get_weights e p ka kb) ubi fps ts cg
    dc emb pats a b
  constructor
  · exact scoreOf_nonneg _ _ hw (fun kv hkv => (hb kv hkv).1)
  · have h1 := scoreOf_le_names (get_weights e p ka kb)
      (computeSignals (get_weights e p ka kb) ubi fps ts cg dc emb pats
        a b) hw (fun kv hkv => (hb kv hkv).2)
    have h2 := sum_lookup_le (get_weights e p ka kb)
      (get_weights_keys_nodup e p ka kb) hw
      ((computeSignals (get_weights e p ka kb) ubi fps ts cg dc emb pats
        a b).map Prod.fst)
      (computeSignals_names_nodup _ ubi fps ts cg dc emb pats a b)
    have h3 := sum_get_weights e p ka kb
    linarith

/-- The raw per-pair score lies in the unit interval. -/
theorem score_pair_bounds (ubi : Artifact CodeUnit)
    (fps : Artifact Fingerprint) (ts : Artifact TypeSig)
    (cg : Artifact CallVec) (dc : Artifact DepCtx)
    (emb : Artifact (List ℝ)) (pats : Artifact (List String))
    (he hp : Bool) (a b : String) :
    0 ≤ (score_pair ubi fps ts cg dc emb pats he hp a b).score
    ∧ (score_pair ubi fps ts cg dc emb pats he hp a b).score ≤ 1 :=
  scoreOf_getWeights_bounds he hp ((ubi.lookup a).getD {}).kind
    ((ubi.lookup b).getD {}).kind ubi fps ts cg dc emb pats a b

/-- The raw per-pair signal dict is the signal dict of the adapted
weights. -/
theorem score_pair_signals_bounds (ubi : Artifact CodeUnit)
    (fps : Artifact Fingerprint) (ts : Artifact TypeSig)
    (cg : Artifact CallVec) (dc : Artifact DepCtx)
    (emb : Artifact (List ℝ)) (pats : Artifact (List String))
    (he hp : Bool) (a b : String) :
    ∀ kv ∈ (score_pair ubi fps ts cg dc emb pats he hp a b).signals,
      0 ≤ kv.2 ∧ kv.2 ≤ 1 :=
  computeSignals_bounds _ ubi fps ts cg dc emb pats a b

/-- C6: every pair emitted into the similarity matrix has its score and
all its recorded signal values in the unit interval, and every cluster
enriched from a matrix whose scores lie in the unit interval has
`avgSimilarity` and `consumerOverlap` in the unit interval. -/
theorem c6_bounds (units : List CodeUnit) (fps : Artifact Fingerprint)
    (ts : Artifact TypeSig) (cg : Artifact CallVec) (dc : Artifact DepCtx)
    (emb : Artifact (List ℝ)) (pats : Artifact (List String))
    (threshold : ℝ) (members : Finset String)
    (matrix : List ScoredPair) (ubi2 : Artifact CodeUnit) :
    (∀ pr ∈ compute_scores units fps ts cg dc emb pats threshold,
       (0 ≤ pr.score ∧ pr.score ≤ 1)
       ∧ ∀ kv ∈ pr.signals, 0 ≤ kv.2 ∧ kv.2 ≤ 1)
    ∧ ((∀ q ∈ matrix, 0 ≤ q.score ∧ q.score ≤ 1) →
       0 ≤ (enrich_cluster members matrix ubi2).avgSimilarity
       ∧ (enrich_cluster members matrix ubi2).avgSimilarity ≤ 1
       ∧ 0 ≤ (enrich_cluster members matrix ubi2).consumerOverlap
       ∧ (enrich_cluster members matrix ubi2).consumerOverlap ≤ 1) := by
  constructor
  · intro pr hpr
    unfold compute_scores at hpr
    obtain ⟨p0, hp0, hf⟩ := List.mem_filterMap.mp hpr
    dsimp only at hf
    split at hf
    · exact absurd hf (by simp)
    · split at hf
      · split at hf
        · rw [Option.some.injEq] at hf
          subst hf
          dsimp only
          have hsc := score_pair_bounds (units_by_id units) fps ts cg dc
            emb pats (!emb.isEmpty) (!pats.isEmpty) p0.1 p0.2
          refine ⟨round4_bounds _ hsc.1 hsc.2, ?_⟩
          intro kv hkv
          obtain ⟨kv0, hkv0, rfl⟩ := List.mem_map.mp hkv
          have hb := score_pair_signals_bounds (units_by_id units) fps ts
            cg dc emb pats (!emb.isEmpty) (!pats.isEmpty) p0.1 p0.2 kv0
            hkv0
          exact round4_bounds _ hb.1 hb.2
        · exact absurd hf (by simp)
      · exact absurd hf (by simp)
  · intro hq
    have hmean1 : ∀ x ∈ (matrix.filter (fun p =>
        decide (p.unitA ∈ members) && decide (p.unitB ∈ members))).map
        (·.score), 0 ≤ x ∧ x ≤ 1 := by
      intro x hx
      obtain ⟨q, hqmem, rfl⟩ := List.mem_map.mp hx
      exact hq q (List.mem_of_mem_filter hqmem)
    have h1 := list_mean_bounds _ hmean1
    have r1 := round4_bounds _ h1.1 h1.2
    have hmean2 : ∀ x ∈ (pairsOf ((members.sort (· ≤ ·)).map (fun uid =>
        consumerIdSet ((ubi2.lookup uid).getD {})))).filterMap (fun ab =>
        if ab.1 ∪ ab.2 ≠ ∅ then
          some (((ab.1 ∩ ab.2).card : ℝ) / ((ab.1 ∪ ab.2).card : ℝ))
        else none), 0 ≤ x ∧ x ≤ 1 := by
      intro x hx
      obtain ⟨ab, hab, hf2⟩ := List.mem_filterMap.mp hx
      split at hf2
      · rename_i hne
        rw [Option.some.injEq] at hf2
        subst hf2
        have hpos : (0:ℝ) < ((ab.1 ∪ ab.2).card : ℕ) := by
          exact_mod_cast Finset.card_pos.mpr
            (Finset.nonempty_iff_ne_empty.mpr hne)
        constructor
        · positivity
        · rw [div_le_one hpos]
          exact_mod_cast Finset.card_le_card Finset.inter_subset_union
      · simp at hf2
    have h2 := list_mean_bounds _ hmean2
    have r2 := round4_bounds _ h2.1 h2.2
    exact ⟨r1.1, r1.2, r2.1, r2.2⟩

/-- C6 witness: a concrete cluster over a one-pair matrix with score 1/2
has its mean fields in the unit interval. -/
theorem c6_bounds_witness :
    0 ≤ (enrich_cluster {"a", "b"}
        [{ unitA := "a", unitB := "b", score := 1/2 }] []).avgSimilarity
    ∧ (enrich_cluster {"a", "b"}
        [{ unitA := "a", unitB := "b", score := 1/2 }] []).avgSimilarity ≤ 1
    ∧ 0 ≤ (enrich_cluster {"a", "b"}
        [{ unitA := "a", unitB := "b", score := 1/2 }] []).consumerOverlap
    ∧ (enrich_cluster {"a", "b"}
        [{ unitA := "a", unitB := "b", score := 1/2 }]
        []).consumerOverlap ≤ 1 :=
  (c6_bounds [] [] [] [] [] [] [] 0 {"a", "b"}
      [{ unitA := "a", unitB := "b", score := 1/2 }] []).2 (by
    intro q hq
    rw [List.mem_singleton] at hq
    subst hq
    norm_num)

/-- A key outside the key list never looks up. -/
theorem lookup_eq_none_of_not_mem {κ α : Type} [DecidableEq κ]
    (l : List (κ × α)) (k : κ) (h : k ∉ l.map Prod.fst) :
    l.lookup k = none := by
  cases hl : l.lookup k with
  | none => rfl
  | some v =>
      exact absurd (List.mem_map.mpr ⟨(k, v), lookup_mem l k v hl, rfl⟩) h

/-- The dict-iteration dot product as a sum over the common key set. -/
theorem dotCore_eq_sum {κ : Type} [DecidableEq κ] (a b : SparseVec κ)
    (ha : (a.map Prod.fst).Nodup) :
    dotCore a b = ∑ k ∈ (a.map Prod.fst).toFinset
        ∩ (b.map Prod.fst).toFinset,
      (a.lookup k).getD 0 * (b.lookup k).getD 0 := by
  induction a with
  | nil => simp [dotCore]
  | cons kv rest ih =>
      simp only [List.map_cons, List.nodup_cons] at ha
      obtain ⟨hk, hrest⟩ := ha
      rw [dotCore, ih hrest, List.map_cons, List.toFinset_cons]
      by_cases hkb : kv.1 ∈ (b.map Prod.fst).toFinset
      · rw [Finset.insert_inter_of_mem hkb, Finset.sum_insert (by
          intro hmem
          exact hk (by simpa using Finset.mem_of_mem_inter_left hmem))]
        congr 1
        · cases hbl : b.lookup kv.1 with
          | none => simp [List.lookup]
          | some w => simp [List.lookup]
        · refine Finset.sum_congr rfl fun x hx => ?_
          have hxk : x ≠ kv.1 := by
            rintro rfl
            exact hk (by simpa using Finset.mem_of_mem_inter_left hx)
          simp [List.lookup, beq_eq_false_iff_ne.mpr hxk]
      · rw [Finset.insert_inter_of_not_mem hkb]
        have hbl : b.lookup kv.1 = none :=
          lookup_eq_none_of_not_mem b kv.1 (by simpa using hkb)
        rw [hbl]
        have hhead :
            (match (none : Option ℝ) with
             | some w => kv.2 * w
             | none => (0:ℝ)) = 0 := rfl
        rw [hhead, zero_add]
        refine Finset.sum_congr rfl fun x hx => ?_
        have hxk : x ≠ kv.1 := by
          rintro rfl
          exact hkb (Finset.mem_of_mem_inter_right hx)
        simp [List.lookup, beq_eq_false_iff_ne.mpr hxk]

/-- The iteration order of the dot product does not matter for
nodup-keyed dicts. -/
theorem dotCore_comm {κ : Type} [DecidableEq κ] (a b : SparseVec κ)
    (ha : (a.map Prod.fst).Nodup) (hb : (b.map Prod.fst).Nodup) :
    dotCore a b = dotCore b a := by
  rw [dotCore_eq_sum a b ha, dotCore_eq_sum b a hb, Finset.inter_comm]
  exact Finset.sum_congr rfl fun x _ => mul_comm _ _

/-- `dot` is symmetric on nodup-keyed dicts. -/
theorem dot_comm {κ : Type} [DecidableEq κ] (a b : SparseVec κ)
    (ha : (a.map Prod.fst).Nodup) (hb : (b.map Prod.fst).Nodup) :
    dot a b = dot b a := by
  unfold dot
  rcases lt_trichotomy a.length b.length with h | h | h
  · rw [if_neg (by omega), if_pos (by omega)]
  · rw [if_neg (by omega), if_neg (by omega)]
    exact dotCore_comm a b ha hb
  · rw [if_pos (by omega), if_neg (by omega)]

/-- Cosine similarity is symmetric on nodup-keyed dicts. -/
theorem cosine_sim_comm {κ : Type} [DecidableEq κ] (a b : SparseVec κ)
    (ha : (a.map Prod.fst).Nodup) (hb : (b.map Prod.fst).Nodup) :
    cosine_sim a b = cosine_sim b a := by
  unfold cosine_sim
  by_cases h1 : a.isEmpty
  · simp [h1]
  · by_cases h2 : b.isEmpty
    · simp [h2]
    · simp only [h1, h2, Bool.or_false, Bool.false_or, if_false,
        Bool.false_eq_true]
      by_cases h3 : magnitude a = 0
      · simp [h3]
      · by_cases h4 : magnitude b = 0
        · simp [h4]
        · rw [if_neg (by tauto), if_neg (by tauto),
            dot_comm a b ha hb, mul_comm (magnitude a)]

/-- Jaccard similarity is symmetric. -/
theorem jaccard_sim_comm {κ : Type} [DecidableEq κ] (a b : Finset κ) :
    jaccard_sim a b = jaccard_sim b a := by
  unfold jaccard_sim
  rw [Finset.inter_comm a b, Finset.union_comm a b]
  by_cases h1 : a = ∅ <;> by_cases h2 : b = ∅ <;> simp [h1, h2]

/-- The index-paired difference count is symmetric. -/
theorem countDiffs_comm (a b : List ℤ) : countDiffs a b = countDiffs b a := by
  induction a generalizing b with
  | nil => cases b <;> rfl
  | cons x xs ih =>
      cases b with
      | nil => rfl
      | cons y ys =>
          unfold countDiffs at *
          rw [List.zip_cons_cons, List.zip_cons_cons, List.countP_cons,
            List.countP_cons, ih ys]
          congr 1
          simp [ne_comm]

/-- Normalized Hamming similarity is symmetric. -/
theorem normalized_hamming_comm (a b : List ℤ) :
    normalized_hamming a b = normalized_hamming b a := by
  unfold normalized_hamming
  by_cases h1 : a = [] ∧ b = []
  · rw [if_pos h1]
    conv_rhs => rw [if_pos ⟨h1.2, h1.1⟩]
  · rw [if_neg h1]
    conv_rhs => rw [if_neg (fun h => h1 ⟨h.2, h.1⟩)]
    by_cases h2 : a.length = b.length
    · rw [if_neg (fun hc => hc h2)]
      conv_rhs => rw [if_neg (fun hc => hc h2.symm)]
      rw [countDiffs_comm, h2]
    · rw [if_pos h2]
      conv_rhs => rw [if_pos (fun hc => h2 hc.symm)]
      dsimp only
      rw [countDiffs_comm, min_comm a.length, max_comm a.length]

mutual

/-- Node matching is symmetric in the two trees. -/
theorem matchNodes_comm (a b : Jsx) : matchNodes a b = matchNodes b a := by
  cases a with
  | node ta ca =>
      cases b with
      | node tb cb =>
          rw [matchNodes, matchNodes, matchChildren_comm ca cb]
          congr 1
          simp [eq_comm]

/-- Index-paired child matching is symmetric. -/
theorem matchChildren_comm (as_ bs : List Jsx) :
    matchChildren as_ bs = matchChildren bs as_ := by
  cases as_ with
  | nil => cases bs <;> rfl
  | cons a as2 =>
      cases bs with
      | nil => rfl
      | cons b bs2 =>
          rw [matchChildren, matchChildren, matchNodes_comm a b,
            matchChildren_comm as2 bs2]

end

/-- Tree-edit similarity is symmetric. -/
theorem tree_edit_comm (ta tb : Option Jsx) :
    tree_edit_distance_normalized ta tb
      = tree_edit_distance_normalized tb ta := by
  cases ta with
  | none =>
      cases tb with
      | none => rfl
      | some t =>
          unfold tree_edit_distance_normalized
          dsimp only [countNodesOpt, matchNodesOpt]
          split <;> split <;> simp_all
  | some s =>
      cases tb with
      | none =>
          unfold tree_edit_distance_normalized
          dsimp only [countNodesOpt, matchNodesOpt]
          split <;> split <;> simp_all
      | some t =>
          unfold tree_edit_distance_normalized
          dsimp only [countNodesOpt, matchNodesOpt]
          rw [matchNodes_comm, Nat.add_comm (countNodes s)]

/-- The truthy-guarded hash comparison is symmetric: a truthy value can
only equal another truthy value. -/
theorem truthy_eq_comm (x y : String) :
    (x != "" && x == y) = (y != "" && y == x) := by
  by_cases h : x = y
  · subst h
    rfl
  · have h2 : (x == y) = false := beq_eq_false_iff_ne.mpr h
    have h3 : (y == x) = false := beq_eq_false_iff_ne.mpr (Ne.symm h)
    simp [h2, h3]

/-- The truthy-guarded optional hash comparison is symmetric. -/
theorem optTruthy_eq_comm (x y : Option String) :
    (optTruthy x && x == y) = (optTruthy y && y == x) := by
  cases x with
  | none =>
      cases y with
      | none => rfl
      | some t => simp [optTruthy]
  | some s =>
      cases y with
      | none => simp [optTruthy]
      | some t => exact truthy_eq_comm s t

/-- The positive-equal-arity condition is symmetric. -/
theorem arity_cond_comm (x y : ℕ) : (0 < x ∧ x = y) ↔ (0 < y ∧ y = x) := by
  constructor <;> rintro ⟨h1, rfl⟩ <;> exact ⟨h1, rfl⟩

/-- Embedding vectors keyed by position have distinct keys. -/
theorem denseVec_keys_nodup (l : List ℝ) :
    ((denseVec l).map Prod.fst).Nodup :=
  List.nodup_enum_map_fst l

/-- Hook vectors keyed by position have distinct keys. -/
theorem hookVec_keys_nodup (hp : List ℤ) :
    ((hookVec hp).map Prod.fst).Nodup := by
  unfold hookVec
  rw [List.map_map]
  show ((hp.enum.filter _).map Prod.fst).Nodup
  exact List.Sublist.nodup
    (List.Sublist.map Prod.fst (List.filter_sublist _))
    (List.nodup_enum_map_fst hp)

/-- The semantic signal is symmetric. -/
theorem sig_semantic_comm (emb : Artifact (List ℝ)) (a b : String) :
    sig_semantic emb a b = sig_semantic emb b a := by
  unfold sig_semantic
  cases emb.lookup a <;> cases emb.lookup b <;> try rfl
  exact cosine_sim_comm _ _ (denseVec_keys_nodup _) (denseVec_keys_nodup _)

/-- The type-signature signal is symmetric. -/
theorem sig_type_signature_comm (ts : Artifact TypeSig) (a b : String) :
    sig_type_signature ts a b = sig_type_signature ts b a := by
  unfold sig_type_signature
  cases ts.lookup a with
  | none => cases ts.lookup b <;> rfl
  | some sa =>
      cases ts.lookup b with
      | none => rfl
      | some sb =>
          dsimp only
          rw [truthy_eq_comm sa.strict_hash sb.strict_hash,
            truthy_eq_comm sa.loose_hash sb.loose_hash,
            if_congr (arity_cond_comm sa.arity sb.arity) rfl rfl]

/-- The JSX-structure signal is symmetric. -/
theorem sig_jsx_structure_comm (fps : Artifact Fingerprint)
    (ubi : Artifact CodeUnit) (a b : String) :
    sig_jsx_structure fps ubi a b = sig_jsx_structure fps ubi b a := by
  unfold sig_jsx_structure
  dsimp only
  cases ((ubi.lookup a).getD {} : CodeUnit).jsxTree <;>
    cases ((ubi.lookup b).getD {} : CodeUnit).jsxTree <;> try rfl
  dsimp only
  rw [optTruthy_eq_comm
      (((fps.lookup a).getD {} : Fingerprint).jsxHash.exact)
      (((fps.lookup b).getD {} : Fingerprint).jsxHash.exact),
    optTruthy_eq_comm
      (((fps.lookup a).getD {} : Fingerprint).jsxHash.fuzzy)
      (((fps.lookup b).getD {} : Fingerprint).jsxHash.fuzzy),
    tree_edit_comm]

/-- The hook-profile signal is symmetric. -/
theorem sig_hook_profile_comm (fps : Artifact Fingerprint)
    (a b : String) : sig_hook_profile fps a b = sig_hook_profile fps b a := by
  unfold sig_hook_profile
  dsimp only
  cases h1 : (((fps.lookup a).getD {} : Fingerprint).hookProfile).isEmpty <;>
    cases h2 : (((fps.lookup b).getD {} : Fingerprint).hookProfile).isEmpty <;>
    simp [h1, h2] <;>
    exact cosine_sim_comm _ _ (hookVec_keys_nodup _) (hookVec_keys_nodup _)

/-- The imports signal is symmetric for dict-shaped (nodup-keyed)
constellations. -/
theorem sig_imports_comm (fps : Artifact Fingerprint) (a b : String)
    (ha : ((((fps.lookup a).getD {} : Fingerprint).importConstellation).map
      Prod.fst).Nodup)
    (hb : ((((fps.lookup b).getD {} : Fingerprint).importConstellation).map
      Prod.fst).Nodup) :
    sig_imports fps a b = sig_imports fps b a :=
  cosine_sim_comm _ _ ha hb

/-- The data-access signal is symmetric. -/
theorem sig_data_access_comm (fps : Artifact Fingerprint) (a b : String) :
    sig_data_access fps a b = sig_data_access fps b a := by
  unfold sig_data_access
  dsimp only
  cases h1 : (((fps.lookup a).getD {} : Fingerprint).dataAccessPattern).isEmpty <;>
    cases h2 : (((fps.lookup b).getD {} : Fingerprint).dataAccessPattern).isEmpty <;>
    simp [h1, h2] <;>
    exact jaccard_sim_comm _ _

/-- The behavior signal is symmetric. -/
theorem sig_behavior_comm (fps : Artifact Fingerprint) (a b : String) :
    sig_behavior fps a b = sig_behavior fps b a := by
  unfold sig_behavior
  dsimp only
  cases h1 : (((fps.lookup a).getD {} : Fingerprint).behaviorFlags).isEmpty <;>
    cases h2 : (((fps.lookup b).getD {} : Fingerprint).behaviorFlags).isEmpty <;>
    simp [h1, h2] <;>
    exact normalized_hamming_comm _ _

/-- The callee-set signal is symmetric for nodup-keyed vectors. -/
theorem sig_callee_set_comm (cg : Artifact CallVec) (a b : String)
    (ha : ((((cg.lookup a).getD {} : CallVec).calleeSetVector).map
      Prod.fst).Nodup)
    (hb : ((((cg.lookup b).getD {} : CallVec).calleeSetVector).map
      Prod.fst).Nodup) :
    sig_callee_set cg a b = sig_callee_set cg b a :=
  cosine_sim_comm _ _ ha hb

/-- The call-sequence signal is symmetric. -/
theorem sig_call_sequence_comm (cg : Artifact CallVec) (a b : String) :
    sig_call_sequence cg a b = sig_call_sequence cg b a := by
  unfold sig_call_sequence
  dsimp only
  rw [Finset.inter_comm]
  rw [if_congr Iff.rfl rfl (if_congr
    (exists_congr fun c => and_congr_right fun _ => eq_comm) rfl rfl)]
  rw [Nat.max_comm]

/-- The consumer-set signal is symmetric. -/
theorem sig_consumer_set_comm (ubi : Artifact CodeUnit) (a b : String) :
    sig_consumer_set ubi a b = sig_consumer_set ubi b a := by
  unfold sig_consumer_set
  dsimp only
  by_cases h1 : consumerIdSet ((ubi.lookup a).getD {}) = ∅
      ∧ consumerIdSet ((ubi.lookup b).getD {}) = ∅
  · rw [if_pos h1]
    conv_rhs => rw [if_pos ⟨h1.2, h1.1⟩]
  · rw [if_neg h1]
    conv_rhs => rw [if_neg (fun h => h1 ⟨h.2, h.1⟩)]
    rw [jaccard_sim_comm, Finset.inter_comm]

/-- The co-occurrence signal is symmetric for nodup-keyed vectors. -/
theorem sig_cooccurrence_comm (dc : Artifact DepCtx) (a b : String)
    (ha : ((((dc.lookup a).getD {} : DepCtx).cooccurrenceVector).map
      Prod.fst).Nodup)
    (hb : ((((dc.lookup b).getD {} : DepCtx).cooccurrenceVector).map
      Prod.fst).Nodup) :
    sig_cooccurrence dc a b = sig_cooccurrence dc b a :=
  cosine_sim_comm _ _ ha hb

/-- The neighborhood signal is symmetric. -/
theorem sig_neighborhood_comm (dc : Artifact DepCtx) (a b : String) :
    sig_neighborhood dc a b = sig_neighborhood dc b a := by
  unfold sig_neighborhood
  dsimp only
  rw [optTruthy_eq_comm ((dc.lookup a).map (·.neighborhoodHash_r1))
      ((dc.lookup b).map (·.neighborhoodHash_r1)),
    optTruthy_eq_comm ((dc.lookup a).map (·.neighborhoodHash_r2))
      ((dc.lookup b).map (·.neighborhoodHash_r2))]

/-- The structural-pattern signal is symmetric. -/
theorem sig_structural_pattern_comm (pats : Artifact (List String))
    (a b : String) :
    sig_structural_pattern pats a b = sig_structural_pattern pats b a := by
  unfold sig_structural_pattern
  dsimp only
  cases h1 : ((pats.lookup a).getD []).isEmpty <;>
    cases h2 : ((pats.lookup b).getD []).isEmpty <;>
    simp [h1, h2] <;>
    exact jaccard_sim_comm _ _

/-- Weight adaptation only looks at the unordered pair of kinds. -/
theorem get_weights_swap (e p : Bool) (ka kb : String) :
    get_weights e p ka kb = get_weights e p kb ka := by
  unfold get_weights adapted_weights
  rw [Bool.and_comm (ka == "component") (kb == "component"),
    Bool.and_comm (ka == "component" || ka == "hook")
      (kb == "component" || kb == "hook")]

/-- With a fixed weight dict, the signal dict is symmetric in the pair,
given the Python-dict key invariant for the three looked-up sparse
vectors of each unit. -/
theorem computeSignals_swap (w : List (String × ℝ))
    (ubi : Artifact CodeUnit) (fps : Artifact Fingerprint)
    (ts : Artifact TypeSig) (cg : Artifact CallVec) (dc : Artifact DepCtx)
    (emb : Artifact (List ℝ)) (pats : Artifact (List String))
    (a b : String)
    (hia : ((((fps.lookup a).getD {} : Fingerprint).importConstellation).map
      Prod.fst).Nodup)
    (hib : ((((fps.lookup b).getD {} : Fingerprint).importConstellation).map
      Prod.fst).Nodup)
    (hca : ((((cg.lookup a).getD {} : CallVec).calleeSetVector).map
      Prod.fst).Nodup)
    (hcb : ((((cg.lookup b).getD {} : CallVec).calleeSetVector).map
      Prod.fst).Nodup)
    (hoa : ((((dc.lookup a).getD {} : DepCtx).cooccurrenceVector).map
      Prod.fst).Nodup)
    (hob : ((((dc.lookup b).getD {} : DepCtx).cooccurrenceVector).map
      Prod.fst).Nodup) :
    computeSignals w ubi fps ts cg dc emb pats a b
      = computeSignals w ubi fps ts cg dc emb pats b a := by
  unfold computeSignals
  rw [sig_semantic_comm emb a b, sig_type_signature_comm ts a b,
    sig_jsx_structure_comm fps ubi a b, sig_hook_profile_comm fps a b,
    sig_imports_comm fps a b hia hib, sig_data_access_comm fps a b,
    sig_behavior_comm fps a b, sig_callee_set_comm cg a b hca hcb,
    sig_call_sequence_comm cg a b, sig_consumer_set_comm ubi a b,
    sig_cooccurrence_comm dc a b hoa hob, sig_neighborhood_comm dc a b,
    sig_structural_pattern_comm pats a b]

/-- C5: pairwise scoring is symmetric.  For any fixed artifacts in which
the looked-up sparse vectors carry the Python-dict distinct-key
invariant, scoring the pair as (a, b) and as (b, a) yields the same
score and the same dominant signal. -/
theorem c5_score_symmetry (ubi : Artifact CodeUnit)
    (fps : Artifact Fingerprint) (ts : Artifact TypeSig)
    (cg : Artifact CallVec) (dc : Artifact DepCtx)
    (emb : Artifact (List ℝ)) (pats : Artifact (List String))
    (he hp : Bool) (a b : String)
    (hia : ((((fps.lookup a).getD {} : Fingerprint).importConstellation).map
      Prod.fst).Nodup)
    (hib : ((((fps.lookup b).getD {} : Fingerprint).importConstellation).map
      Prod.fst).Nodup)
    (hca : ((((cg.lookup a).getD {} : CallVec).calleeSetVector).map
      Prod.fst).Nodup)
    (hcb : ((((cg.lookup b).getD {} : CallVec).calleeSetVector).map
      Prod.fst).Nodup)
    (hoa : ((((dc.lookup a).getD {} : DepCtx).cooccurrenceVector).map
      Prod.fst).Nodup)
    (hob : ((((dc.lookup b).getD {} : DepCtx).cooccurrenceVector).map
      Prod.fst).Nodup) :
    (score_pair ubi fps ts cg dc emb pats he hp a b).score
      = (score_pair ubi fps ts cg dc emb pats he hp b a).score
    ∧ (score_pair ubi fps ts cg dc emb pats he hp a b).dominantSignal
      = (score_pair ubi fps ts cg dc emb pats he hp b a).dominantSignal := by
  have hrec : score_pair ubi fps ts cg dc emb pats he hp a b
      = score_pair ubi fps ts cg dc emb pats he hp b a := by
    unfold score_pair
    dsimp only
    rw [get_weights_swap he hp (((ubi.lookup a).getD {} : CodeUnit).kind)
      (((ubi.lookup b).getD {} : CodeUnit).kind)]
    rw [computeSignals_swap _ ubi fps ts cg dc emb pats a b hia hib hca
      hcb hoa hob]
  exact ⟨congrArg PairScore.score hrec,
    congrArg PairScore.dominantSignal hrec⟩

/-- C5 witness: symmetry holds at a concrete pair over empty
artifacts. -/
theorem c5_score_symmetry_witness :
    (score_pair [] [] [] [] [] [] [] false false "a" "b").score
      = (score_pair [] [] [] [] [] [] [] false false "b" "a").score
    ∧ (score_pair [] [] [] [] [] [] [] false false "a" "b").dominantSignal
      = (score_pair [] [] [] [] [] [] [] false false "b"
          "a").dominantSignal :=
  c5_score_symmetry [] [] [] [] [] [] [] false false "a" "b"
    (by simp [List.lookup]) (by simp [List.lookup]) (by simp [List.lookup])
    (by simp [List.lookup]) (by simp [List.lookup]) (by simp [List.lookup])

/-- One step of the directory accumulation equals an optional insert of
the app-level directory. -/
theorem fold_dir_step (acc : Finset String) (fp : String) :
    (if containsSlash fp then
       let parts := pathParts fp
       if parts.contains "apps" then
         (if parts.indexOf "apps" + 1 < parts.length then
           insert (parts.getD (parts.indexOf "apps" + 1) "") acc
         else insert (rsplitDir fp) acc)
       else insert (parts.headD "") acc
     else acc)
    = (match appDirectory fp with
       | some d => insert d acc
       | none => acc) := by
  unfold appDirectory
  cases hc : containsSlash fp
  · simp [hc]
  · simp only [hc, if_true]
    cases h2 : (pathParts fp).contains "apps"
    · simp [h2]
    · simp only [h2, if_true]
      by_cases h3 : (pathParts fp).indexOf "apps" + 1
          < (pathParts fp).length
      · simp [h3]
      · simp [h3]

/-- Folding optional inserts accumulates the set of produced values. -/
theorem fold_insert_opt {α : Type} (l : List α) (g : α → Option String)
    (acc : Finset String) :
    l.foldl (fun acc x => match g x with
      | some d => insert d acc
      | none => acc) acc
      = acc ∪ (l.filterMap g).toFinset := by
  induction l generalizing acc with
  | nil => simp
  | cons x rest ih =>
      rw [List.foldl_cons, List.filterMap_cons]
      cases hx : g x with
      | none => rw [ih]
      | some d =>
          rw [ih, List.toFinset_cons]
          rw [Finset.insert_union, Finset.union_insert]

/-- Directory spread of an enriched cluster, characterized through
`appDirectory`. -/
theorem enrich_directorySpread_eq (members : Finset String)
    (scored_pairs : List ScoredPair) (ubi : Artifact CodeUnit) :
    (enrich_cluster members scored_pairs ubi).directorySpread
      = (((members.sort (· ≤ ·)).filterMap (fun uid =>
          appDirectory (((ubi.lookup uid).getD {}).filePath))).toFinset).card := by
  unfold enrich_cluster
  dsimp only
  congr 1
  have hfun : (fun (acc : Finset String) (uid : String) =>
      let fp := ((ubi.lookup uid).getD {} : CodeUnit).filePath
      if containsSlash fp then
        let parts := pathParts fp
        if parts.contains "apps" then
          (if parts.indexOf "apps" + 1 < parts.length then
            insert (parts.getD (parts.indexOf "apps" + 1) "") acc
          else insert (rsplitDir fp) acc)
        else insert (parts.headD "") acc
      else acc)
      = (fun (acc : Finset String) (uid : String) =>
        match appDirectory (((ubi.lookup uid).getD {} : CodeUnit).filePath)
          with
        | some d => insert d acc
        | none => acc) := by
    funext acc uid
    exact fold_dir_step acc (((ubi.lookup uid).getD {} : CodeUnit).filePath)
  rw [hfun, fold_insert_opt]
  simp

/-- C9 amended: for every cluster, `directorySpread` counts the distinct
app-level directories over its members, where a member whose filePath
has no slash contributes nothing, and a member with a slash contributes
the segment after the first `apps` segment when `apps` is present and
not last, the prefix before the last slash when `apps` is the last
segment, and the first path segment otherwise. -/
theorem c9_directory_spread (members : Finset String)
    (scored_pairs : List ScoredPair) (ubi : Artifact CodeUnit) :
    (enrich_cluster members scored_pairs ubi).directorySpread
      = (((members.sort (· ≤ ·)).filterMap (fun uid =>
          appDirectory (((ubi.lookup uid).getD {}).filePath))).toFinset).card :=
  enrich_directorySpread_eq members scored_pairs ubi

/-- The two-element member set sorts to the two ids in order. -/
theorem sort_uv : ({"u", "v"} : Finset String).sort (· ≤ ·) = ["u", "v"] := by
  have h1 : ∀ b ∈ ({"v"} : Finset String), ("u" : String) ≤ b := by
    intro b hb
    rw [Finset.mem_singleton] at hb
    subst hb
    simp
    decide
  have h2 : ("u" : String) ∉ ({"v"} : Finset String) := by decide
  rw [show ({"u", "v"} : Finset String) = insert "u" {"v"} from rfl,
    Finset.sort_insert (· ≤ ·) h1 h2, Finset.sort_singleton]

/-- C9 counterexample: with two members whose file paths are single
segments without a slash, the code counts zero directories whereas the
claim as stated counts two distinct first segments. -/
theorem c9_counterexample :
    (enrich_cluster ({"u", "v"} : Finset String) [] ubiC9).directorySpread
        = 0
    ∧ directorySpreadClaim ({"u", "v"} : Finset String) ubiC9 = 2 := by
  constructor
  · rw [enrich_directorySpread_eq, sort_uv]
    decide
  · unfold directorySpreadClaim
    rw [sort_uv]
    decide

/-- C7: for every combination of embedding presence, structural-pattern
presence and unit kinds, the adapted weight set sums to 1 (exactly, in
real arithmetic, hence within the 1e-9 tolerance the spec allows). -/
theorem c7_weight_renormalization (has_emb has_pat : Bool)
    (kind_a kind_b : String) :
    |sumVals (get_weights has_emb has_pat kind_a kind_b) - 1| ≤ 1e-9 := by
  rw [sum_get_weights]
  norm_num

/-! ## C10: empty consumers and the neighborhood hash -/

/-- The abstract digest is never the empty string. -/
theorem sha256Hex_ne_empty (s : String) : sha256Hex s ≠ "" := by
  unfold sha256Hex
  intro h
  have h2 := congrArg String.length h
  rw [String.length_append,
    show ("h" : String).length = 1 from rfl,
    show ("" : String).length = 0 from rfl] at h2
  omega

/-- One lookup step on a cons cell, with the key test as an `if`. -/
theorem lookup_cons_eqn {κ α : Type} [DecidableEq κ]
    (k a : κ) (b : α) (rest : List (κ × α)) :
    ((a, b) :: rest).lookup k
      = if k = a then some b else rest.lookup k := by
  by_cases hk : k = a
  · rw [if_pos hk]
    simp only [List.lookup]
    rw [show (k == a) = true from beq_iff_eq.mpr hk]
  · rw [if_neg hk]
    simp only [List.lookup]
    rw [show (k == a) = false from beq_eq_false_iff_ne.mpr hk]

/-- Lookup distributes over list append via `Option.or`. -/
theorem lookup_append {κ α : Type} [DecidableEq κ]
    (l₁ l₂ : List (κ × α)) (k : κ) :
    ((l₁ ++ l₂).lookup k) = ((l₁.lookup k).or (l₂.lookup k)) := by
  induction l₁ with
  | nil => rfl
  | cons kv rest ih =>
      obtain ⟨a, b⟩ := kv
      rw [List.cons_append, lookup_cons_eqn, lookup_cons_eqn]
      by_cases hk : k = a
      · rw [if_pos hk, if_pos hk]
        rfl
      · rw [if_neg hk, if_neg hk, ih]

/-- Value-overwriting map: looking up the overwritten key yields the new
value when the key is present. -/
theorem lookup_map_set_self {κ α : Type} [DecidableEq κ]
    (m : List (κ × α)) (k : κ) (x : α) (h : (m.lookup k).isSome) :
    ((m.map (fun kv => if kv.1 = k then (kv.1, x) else kv)).lookup k)
      = some x := by
  induction m with
  | nil => simp [List.lookup] at h
  | cons kv rest ih =>
      obtain ⟨a, b⟩ := kv
      rw [List.map_cons]
      dsimp only
      by_cases hk : a = k
      · rw [if_pos hk, lookup_cons_eqn, if_pos hk.symm]
      · rw [lookup_cons_eqn, if_neg (fun hc : k = a => hk hc.symm)] at h
        rw [if_neg hk, lookup_cons_eqn,
          if_neg (fun hc : k = a => hk hc.symm)]
        exact ih h

/-- Value-overwriting map: any other key is untouched. -/
theorem lookup_map_set_ne {κ α : Type} [DecidableEq κ]
    (m : List (κ × α)) (k k' : κ) (x : α) (h : k' ≠ k) :
    ((m.map (fun kv => if kv.1 = k then (kv.1, x) else kv)).lookup k')
      = m.lookup k' := by
  induction m with
  | nil => rfl
  | cons kv rest ih =>
      obtain ⟨a, b⟩ := kv
      rw [List.map_cons]
      dsimp only
      by_cases hk : a = k
      · rw [if_pos hk, lookup_cons_eqn, lookup_cons_eqn]
        rw [if_neg (fun hc : k' = a => h (hc.trans hk)),
          if_neg (fun hc : k' = a => h (hc.trans hk))]
        exact ih
      · rw [if_neg hk, lookup_cons_eqn, lookup_cons_eqn]
        by_cases hk2 : k' = a
        · rw [if_pos hk2, if_pos hk2]
        · rw [if_neg hk2, if_neg hk2]
          exact ih

/-- `setEntry` behaves as a functional update under lookup. -/
theorem lookup_setEntry {κ α : Type} [DecidableEq κ]
    (m : List (κ × α)) (k k' : κ) (x : α) :
    (setEntry m k x).lookup k'
      = if k' = k then some x else m.lookup k' := by
  unfold setEntry
  by_cases h : (m.lookup k).isSome
  · rw [if_pos h]
    by_cases hk : k' = k
    · subst hk
      rw [if_pos rfl, lookup_map_set_self m k' x h]
    · rw [if_neg hk, lookup_map_set_ne m k k' x hk]
  · rw [if_neg h, lookup_append]
    by_cases hk : k' = k
    · subst hk
      rw [Option.not_isSome_iff_eq_none] at h
      rw [if_pos rfl, h, lookup_cons_eqn, if_pos rfl]
      rfl
    · rw [if_neg hk, lookup_cons_eqn, if_neg hk,
        show List.lookup k' ([] : List (κ × α)) = none from rfl,
        Option.or_none]

/-- Every value reachable by lookup after a skip-empty-id `setEntry` fold
came from the initial dict or from some unit with the looked-up id. -/
theorem fold_setEntry_lookup_eq_some {α : Type} (f : CodeUnit → α) :
    ∀ (units : List CodeUnit) (init : List (String × α)) (uid : String)
      (x : α),
      ((units.foldl (fun res u =>
          if u.id = "" then res else setEntry res u.id (f u)) init).lookup
            uid) = some x →
      init.lookup uid = some x ∨ ∃ u ∈ units, u.id = uid ∧ x = f u := by
  intro units
  induction units with
  | nil => intro init uid x h; exact Or.inl h
  | cons u us ih =>
      intro init uid x h
      rw [List.foldl_cons] at h
      rcases ih _ uid x h with h1 | ⟨v, hv, hid, hx⟩
      · by_cases hu : u.id = ""
        · rw [if_pos hu] at h1
          exact Or.inl h1
        · rw [if_neg hu, lookup_setEntry] at h1
          by_cases hk : uid = u.id
          · rw [if_pos hk] at h1
            exact Or.inr ⟨u, List.mem_cons_self u us, hk.symm,
              (Option.some.inj h1).symm⟩
          · rw [if_neg hk] at h1
            exact Or.inl h1
      · exact Or.inr ⟨v, List.mem_cons_of_mem u hv, hid, hx⟩

/-- A skip-empty-id `setEntry` fold produces an entry for every key that
was already present or belongs to some unit with a non-empty id. -/
theorem fold_setEntry_lookup_isSome {α : Type} (f : CodeUnit → α) :
    ∀ (units : List CodeUnit) (init : List (String × α)) (uid : String),
      ((init.lookup uid).isSome ∨ ∃ u ∈ units, u.id = uid ∧ uid ≠ "") →
      ((units.foldl (fun res u =>
          if u.id = "" then res else setEntry res u.id (f u)) init).lookup
            uid).isSome := by
  intro units
  induction units with
  | nil =>
      intro init uid h
      rcases h with h | ⟨u, hu, _⟩
      · exact h
      · exact absurd hu (List.not_mem_nil u)
  | cons u us ih =>
      intro init uid h
      rw [List.foldl_cons]
      apply ih
      rcases h with h | ⟨v, hv, hid, hne⟩
      · left
        by_cases hu : u.id = ""
        · rw [if_pos hu]; exact h
        · rw [if_neg hu, lookup_setEntry]
          by_cases hk : uid = u.id
          · rw [if_pos hk]; rfl
          · rw [if_neg hk]; exact h
      · rcases List.mem_cons.mp hv with rfl | hv2
        · left
          rw [if_neg (fun hc => hne (hid.symm.trans hc)), lookup_setEntry,
            if_pos hid.symm]
          rfl
        · exact Or.inr ⟨v, hv2, hid, hne⟩

/-- A unit with no consumers contributes the empty id set. -/
theorem consumerIdSet_nil (u : CodeUnit) (h : u.consumers = []) :
    consumerIdSet u = ∅ := by
  unfold consumerIdSet
  rw [h]
  rfl

/-- If every unit carrying an id has no consumers, the consumer graph has
no out-edges at that id. -/
theorem graph_lookup_empty (units : List CodeUnit) (uid : String)
    (h : ∀ u ∈ units, u.id = uid → u.consumers = []) :
    ((build_consumer_graph units).lookup uid).getD ∅ = ∅ := by
  cases hl : (build_consumer_graph units).lookup uid with
  | none => rfl
  | some s =>
      rw [Option.getD_some]
      unfold build_consumer_graph at hl
      rcases fold_setEntry_lookup_eq_some consumerIdSet units [] uid s hl
        with h1 | ⟨u, hu, hid, hx⟩
      · simp [List.lookup] at h1
      · rw [hx, consumerIdSet_nil u (h u hu hid)]

/-- BFS from a node with no out-edges never leaves the start node. -/
theorem bfsVisit_isolated (graph : List (String × Finset String))
    (uid : String) (h : ((graph.lookup uid).getD ∅) = ∅) :
    ∀ r : ℕ, bfsVisit graph r {uid} {uid} = {uid}
  | 0 => rfl
  | r + 1 => by
      unfold bfsVisit
      rw [Finset.singleton_biUnion, h, Finset.empty_sdiff, if_pos rfl]

/-- The neighborhood hash of a node with no out-edges is the hash of the
empty id list, at every radius. -/
theorem neighborhood_hash_isolated (uid : String)
    (graph : List (String × Finset String)) (r : ℕ)
    (h : ((graph.lookup uid).getD ∅) = ∅) :
    neighborhood_hash uid graph r = sha256Hex (jsonStrList []) := by
  unfold neighborhood_hash
  rw [bfsVisit_isolated graph uid h r]
  dsimp only
  rw [Finset.erase_singleton, Finset.sort_empty]

/-- Every dep-context record stored under an id carries the radius-1
neighborhood hash of that id in the consumer graph. -/
theorem depctx_r1_hash (units : List CodeUnit) (uid : String) (ctx : DepCtx)
    (h : (compute_dep_context units).lookup uid = some ctx) :
    ctx.neighborhoodHash_r1
      = neighborhood_hash uid (build_consumer_graph units) 1 := by
  unfold compute_dep_context at h
  rcases fold_setEntry_lookup_eq_some
      (fun u => ({ consumerProfile := consumer_profile u
                   cooccurrenceVector := cooccurrence_vector u
                   neighborhoodHash_r1 :=
                     neighborhood_hash u.id (build_consumer_graph units) 1
                   neighborhoodHash_r2 :=
                     neighborhood_hash u.id (build_consumer_graph units) 2 }
        : DepCtx))
      units [] uid ctx h with h1 | ⟨u, hu, hid, hx⟩
  · simp [List.lookup] at h1
  · rw [hx]
    dsimp only
    rw [hid]

/-- Every unit with a non-empty id has a dep-context record. -/
theorem depctx_lookup_isSome (units : List CodeUnit) (u : CodeUnit)
    (hu : u ∈ units) (hne : u.id ≠ "") :
    ((compute_dep_context units).lookup u.id).isSome := by
  unfold compute_dep_context
  exact fold_setEntry_lookup_isSome _ units [] u.id (Or.inr ⟨u, hu, rfl, hne⟩)

/-- Two units with non-empty ids whose consumers lists (and those of any
id-sharing unit) are empty both receive the radius-1 neighborhood hash
of the empty id list, and the neighborhood signal for the pair is 1. -/
theorem empty_consumers_signal (units : List CodeUnit)
    (u v : CodeUnit) (hu : u ∈ units) (hv : v ∈ units)
    (hun : u.id ≠ "") (hvn : v.id ≠ "")
    (hcu : ∀ w ∈ units, w.id = u.id → w.consumers = [])
    (hcv : ∀ w ∈ units, w.id = v.id → w.consumers = []) :
    ((compute_dep_context units).lookup u.id).map
        (fun c => c.neighborhoodHash_r1)
      = some (sha256Hex (jsonStrList []))
    ∧ ((compute_dep_context units).lookup v.id).map
        (fun c => c.neighborhoodHash_r1)
      = some (sha256Hex (jsonStrList []))
    ∧ sig_neighborhood (compute_dep_context units) u.id v.id = 1 := by
  have hgu : ((build_consumer_graph units).lookup u.id).getD ∅ = ∅ :=
    graph_lookup_empty units u.id hcu
  have hgv : ((build_consumer_graph units).lookup v.id).getD ∅ = ∅ :=
    graph_lookup_empty units v.id hcv
  obtain ⟨cu, hcu2⟩ :=
    Option.isSome_iff_exists.mp (depctx_lookup_isSome units u hu hun)
  obtain ⟨cv, hcv2⟩ :=
    Option.isSome_iff_exists.mp (depctx_lookup_isSome units v hv hvn)
  have h1 : cu.neighborhoodHash_r1 = sha256Hex (jsonStrList []) := by
    rw [depctx_r1_hash units u.id cu hcu2]
    exact neighborhood_hash_isolated u.id _ 1 hgu
  have h2 : cv.neighborhoodHash_r1 = sha256Hex (jsonStrList []) := by
    rw [depctx_r1_hash units v.id cv hcv2]
    exact neighborhood_hash_isolated v.id _ 1 hgv
  have hcond : (optTruthy (some (sha256Hex (jsonStrList [])))
      && ((some (sha256Hex (jsonStrList [])) : Option String)
            == some (sha256Hex (jsonStrList [])))) = true := by
    simp [optTruthy, sha256Hex_ne_empty]
  refine ⟨?_, ?_, ?_⟩
  · rw [hcu2, Option.map_some', h1]
  · rw [hcv2, Option.map_some', h2]
  · unfold sig_neighborhood
    dsimp only
    rw [hcu2, hcv2]
    simp only [Option.map_some']
    rw [h1, h2, if_pos hcond]

/-- C10: two units with non-empty ids whose consumers lists (and those
of any id-sharing unit) are empty both receive the radius-1 neighborhood
hash of the empty id list, and the neighborhood signal for the pair is
1. -/
theorem c10_empty_consumers_neighborhood (units : List CodeUnit)
    (u v : CodeUnit) (hu : u ∈ units) (hv : v ∈ units)
    (hun : u.id ≠ "") (hvn : v.id ≠ "")
    (hcu : ∀ w ∈ units, w.id = u.id → w.consumers = [])
    (hcv : ∀ w ∈ units, w.id = v.id → w.consumers = []) :
    ((compute_dep_context units).lookup u.id).map
        (fun c => c.neighborhoodHash_r1)
      = some (sha256Hex (jsonStrList []))
    ∧ ((compute_dep_context units).lookup v.id).map
        (fun c => c.neighborhoodHash_r1)
      = some (sha256Hex (jsonStrList []))
    ∧ sig_neighborhood (compute_dep_context units) u.id v.id = 1 :=
  empty_consumers_signal units u v hu hv hun hvn hcu hcv

/-- Instantiation of C10 on a concrete two-unit corpus with no
consumers anywhere. -/
theorem c10_empty_consumers_neighborhood_witness :
    ((compute_dep_context corpusC10).lookup "x").map
        (fun c => c.neighborhoodHash_r1)
      = some (sha256Hex (jsonStrList []))
    ∧ ((compute_dep_context corpusC10).lookup "y").map
        (fun c => c.neighborhoodHash_r1)
      = some (sha256Hex (jsonStrList []))
    ∧ sig_neighborhood (compute_dep_context corpusC10) "x" "y" = 1 :=
  c10_empty_consumers_neighborhood corpusC10
    { id := "x" } { id := "y" }
    (by unfold corpusC10; exact List.mem_cons_self _ _)
    (by unfold corpusC10; exact List.mem_cons_of_mem _ (List.mem_cons_self _ _))
    (by decide) (by decide)
    (by
      intro w hw _
      unfold corpusC10 at hw
      rcases List.mem_cons.mp hw with rfl | hw2
      · rfl
      rcases List.mem_cons.mp hw2 with rfl | hw3
      · rfl
      exact absurd hw3 (List.not_mem_nil w))
    (by
      intro w hw _
      unfold corpusC10 at hw
      rcases List.mem_cons.mp hw with rfl | hw2
      · rfl
      rcases List.mem_cons.mp hw2 with rfl | hw3
      · rfl
      exact absurd hw3 (List.not_mem_nil w))

/-! ## C3: sparse-vector entry values -/

/-- Decomposition of membership after an add-or-append update. -/
theorem mem_svAdd {κ : Type} [DecidableEq κ] {v : SparseVec κ} {k : κ}
    {x : ℝ} {kv : κ × ℝ} (h : kv ∈ svAdd v k x) :
    kv ∈ v ∨ kv = (k, x) ∨ ∃ kv2 ∈ v, kv = (kv2.1, kv2.2 + x) := by
  unfold svAdd at h
  by_cases hs : (v.lookup k).isSome
  · rw [if_pos hs] at h
    obtain ⟨kv2, hkv2, heq⟩ := List.mem_map.mp h
    by_cases hk : kv2.1 = k
    · rw [if_pos hk] at heq
      exact Or.inr (Or.inr ⟨kv2, hkv2, heq.symm⟩)
    · rw [if_neg hk] at heq
      exact Or.inl (heq ▸ hkv2)
  · rw [if_neg hs] at h
    rcases List.mem_append.mp h with h1 | h1
    · exact Or.inl h1
    · exact Or.inr (Or.inl (List.mem_singleton.mp h1))

/-- Decomposition of membership after an overwrite-or-append update. -/
theorem mem_svSet {κ : Type} [DecidableEq κ] {v : SparseVec κ} {k : κ}
    {x : ℝ} {kv : κ × ℝ} (h : kv ∈ svSet v k x) :
    kv ∈ v ∨ kv.2 = x := by
  unfold svSet at h
  by_cases hs : (v.lookup k).isSome
  · rw [if_pos hs] at h
    obtain ⟨kv2, hkv2, heq⟩ := List.mem_map.mp h
    by_cases hk : kv2.1 = k
    · rw [if_pos hk] at heq
      rw [← heq]
      exact Or.inr rfl
    · rw [if_neg hk] at heq
      exact Or.inl (heq ▸ hkv2)
  · rw [if_neg hs] at h
    rcases List.mem_append.mp h with h1 | h1
    · exact Or.inl h1
    · rw [List.mem_singleton.mp h1]
      exact Or.inr rfl

/-- The counting loop of `data_access_pattern` keeps every stored value
at least 1. -/
theorem svAdd_one_fold_lb (pre : String) :
    ∀ (names : List String) (init : SparseVec String),
      (∀ kv ∈ init, (1 : ℝ) ≤ kv.2) →
      ∀ kv ∈ names.foldl (fun vec name =>
          if name = "" then vec else svAdd vec (pre ++ name) 1) init,
        (1 : ℝ) ≤ kv.2 := by
  intro names
  induction names with
  | nil =>
      intro init h kv hkv
      exact h kv hkv
  | cons n rest ih =>
      intro init hinit kv hkv
      rw [List.foldl_cons] at hkv
      refine ih _ ?_ kv hkv
      intro kv2 hkv2
      by_cases hn : n = ""
      · rw [if_pos hn] at hkv2
        exact hinit kv2 hkv2
      · rw [if_neg hn] at hkv2
        rcases mem_svAdd hkv2 with h1 | h1 | ⟨kv3, hkv3, heq⟩
        · exact hinit kv2 h1
        · rw [h1]
        · rw [heq]
          have h4 := hinit kv3 hkv3
          show (1 : ℝ) ≤ kv3.2 + 1
          linarith

/-- Every entry of `data_access_pattern` has value at least 1. -/
theorem data_access_pattern_lb (u : CodeUnit) :
    ∀ kv ∈ data_access_pattern u, (1 : ℝ) ≤ kv.2 := by
  unfold data_access_pattern
  refine svAdd_one_fold_lb "ds:" u.dataSourceAccess _ ?_
  refine svAdd_one_fold_lb "store:" u.storeAccess [] ?_
  intro kv hkv
  exact absurd hkv (List.not_mem_nil kv)

/-- An IDF table entry is positive whenever the item occurs in strictly
fewer documents than the corpus holds. -/
theorem idfOf_pos (docs : List (List String)) (s : String) (w : ℝ)
    (h : idfOf docs s = some w)
    (hdf : docFreq docs s < docs.length) : 0 < w := by
  unfold idfOf at h
  by_cases h0 : docs.length = 0
  · rw [if_pos h0] at h
    exact absurd h (by simp)
  · rw [if_neg h0] at h
    by_cases h1 : s = ""
    · rw [if_pos h1] at h
      exact absurd h (by simp)
    · rw [if_neg h1] at h
      by_cases h2 : docFreq docs s = 0
      · rw [if_pos h2] at h
        exact absurd h (by simp)
      · rw [if_neg h2] at h
        rw [← Option.some.inj h]
        apply Real.log_pos
        rw [lt_div_iff₀ (by exact_mod_cast Nat.pos_of_ne_zero h2), one_mul]
        exact_mod_cast hdf

/-- The IDF-weighted accumulation loop keeps every stored value positive
when every looked-up weight is positive. -/
theorem idfWeightedVector_pos (idf : String → Option ℝ) :
    ∀ (items : List String) (init : SparseVec String),
      (∀ s ∈ items, ∀ w, idf s = some w → 0 < w) →
      (∀ kv ∈ init, 0 < kv.2) →
      ∀ kv ∈ items.foldl (fun vec src =>
          if src = "" then vec
          else match idf src with
            | some w => svAdd vec src w
            | none => vec) init,
        0 < kv.2 := by
  intro items
  induction items with
  | nil =>
      intro init hi hinit kv hkv
      exact hinit kv hkv
  | cons s rest ih =>
      intro init hi hinit kv hkv
      rw [List.foldl_cons] at hkv
      refine ih _ (fun s2 hs2 => hi s2 (List.mem_cons_of_mem s hs2)) ?_ kv hkv
      intro kv2 hkv2
      by_cases hs : s = ""
      · rw [if_pos hs] at hkv2
        exact hinit kv2 hkv2
      · rw [if_neg hs] at hkv2
        cases hios : idf s with
        | none =>
            rw [hios] at hkv2
            exact hinit kv2 hkv2
        | some w =>
            rw [hios] at hkv2
            rcases mem_svAdd hkv2 with h1 | h1 | ⟨kv3, hkv3, heq⟩
            · exact hinit kv2 h1
            · rw [h1]
              exact hi s (List.mem_cons_self s rest) w hios
            · rw [heq]
              show 0 < kv3.2 + w
              exact add_pos (hinit kv3 hkv3)
                (hi s (List.mem_cons_self s rest) w hios)

/-- The co-occurrence overwrite loop keeps every stored value nonzero
when every written value is nonzero. -/
theorem svSet_fold_ne_zero :
    ∀ (l : List (String × ℝ)) (init : SparseVec String),
      (∀ p ∈ l, p.2 ≠ 0) → (∀ kv ∈ init, kv.2 ≠ 0) →
      ∀ kv ∈ l.foldl (fun vec kv2 => svSet vec kv2.1 kv2.2) init,
        kv.2 ≠ 0 := by
  intro l
  induction l with
  | nil =>
      intro init hl hinit kv hkv
      exact hinit kv hkv
  | cons p rest ih =>
      intro init hl hinit kv hkv
      rw [List.foldl_cons] at hkv
      refine ih _ (fun p2 hp2 => hl p2 (List.mem_cons_of_mem p hp2)) ?_ kv hkv
      intro kv2 hkv2
      rcases mem_svSet hkv2 with h1 | h1
      · exact hinit kv2 h1
      · rw [h1]
        exact hl p (List.mem_cons_self p rest)

/-- C3 (corrected): data-access entries are at least 1; IDF-weighted
entries for imports and callees are positive when each relevant item is in
strictly fewer documents than the corpus holds (an item occurring in
every document gets IDF ln(1) = 0 and is stored at value 0), and
co-occurrence entries are nonzero exactly when the written inputs
are. -/
theorem c3_sparse_vector_entries (u : CodeUnit) (docs : List (List String))
    (hdf : ∀ s ∈ u.imports ++ calleeTargets u,
      docFreq docs s < docs.length) :
    (∀ kv ∈ data_access_pattern u, (1 : ℝ) ≤ kv.2)
    ∧ (∀ kv ∈ import_constellation u (idfOf docs), 0 < kv.2)
    ∧ (∀ kv ∈ callee_set_vector u (idfOf docs), 0 < kv.2)
    ∧ ((∀ p ∈ u.coOccurrences, p.2 ≠ 0) →
        ∀ kv ∈ cooccurrence_vector u, kv.2 ≠ 0) := by
  refine ⟨data_access_pattern_lb u, ?_, ?_, ?_⟩
  · unfold import_constellation idfWeightedVector
    refine idfWeightedVector_pos (idfOf docs) u.imports [] ?_ ?_
    · intro s hs w hw
      exact idfOf_pos docs s w hw (hdf s (List.mem_append_left _ hs))
    · intro kv hkv
      exact absurd hkv (List.not_mem_nil kv)
  · unfold callee_set_vector idfWeightedVector
    refine idfWeightedVector_pos (idfOf docs) (calleeTargets u) [] ?_ ?_
    · intro s hs w hw
      exact idfOf_pos docs s w hw (hdf s (List.mem_append_right _ hs))
    · intro kv hkv
      exact absurd hkv (List.not_mem_nil kv)
  · intro hco
    unfold cooccurrence_vector
    refine svSet_fold_ne_zero u.coOccurrences [] hco ?_
    intro kv hkv
    exact absurd hkv (List.not_mem_nil kv)

/-- Instantiation of the corrected C3 bound on a concrete unit and
corpus. -/
theorem c3_sparse_vector_entries_witness :
    (1 : ℝ) ≤ (("store:" ++ "s", (1 : ℝ)) : String × ℝ).2 :=
  (c3_sparse_vector_entries uC3w [["a"], ["b"]] (by decide)).1
    ("store:" ++ "s", 1)
    (by
      show ("store:" ++ "s", (1 : ℝ)) ∈ [("store:" ++ "s", (1 : ℝ))]
      exact List.mem_singleton.mpr rfl)

/-- C3 counterexample: a lone unit importing a single source stores that
source at IDF weight ln(1/1) = 0, so importConstellation holds a key
mapped to zero. -/
theorem c3_counterexample :
    import_constellation uC3 (idfOf ([uC3].map (fun u => u.imports)))
      = [("x", 0)] := by
  show idfWeightedVector ["x"] (idfOf [["x"]]) = [("x", 0)]
  have hidf : idfOf [["x"]] "x"
      = some (Real.log ((([["x"]].length : ℕ) : ℝ)
          / ((docFreq [["x"]] "x" : ℕ) : ℝ))) := by
    unfold idfOf
    rw [if_neg (by decide), if_neg (by decide), if_neg (by decide)]
  unfold idfWeightedVector
  rw [List.foldl_cons, List.foldl_nil, if_neg (by decide : ¬("x" = "")),
    hidf]
  show svAdd [] "x" (Real.log ((([["x"]].length : ℕ) : ℝ)
      / ((docFreq [["x"]] "x" : ℕ) : ℝ))) = [("x", 0)]
  unfold svAdd
  rw [if_neg (by decide : ¬(((([] : SparseVec String).lookup "x")).isSome = true))]
  rw [List.nil_append]
  have hlog : Real.log ((([["x"]].length : ℕ) : ℝ)
      / ((docFreq [["x"]] "x" : ℕ) : ℝ)) = 0 := by
    norm_num [show docFreq [["x"]] "x" = 1 from by decide]
  rw [hlog]

/-! ## C2: consumer profile bounds -/

/-- The entropy accumulation loop never decreases the accumulator when
every count is bounded by the positive total. -/
theorem entropy_fold_ge (total : ℝ) (htotal : 0 < total) :
    ∀ (l : List (String × ℕ)), (∀ kv ∈ l, (kv.2 : ℝ) ≤ total) →
      ∀ e : ℝ, e ≤ l.foldl (fun e kv =>
        if 0 < kv.2 then
          e - ((kv.2 : ℝ) / total) * Real.logb 2 ((kv.2 : ℝ) / total)
        else e) e := by
  intro l
  induction l with
  | nil =>
      intro _ e
      exact le_refl e
  | cons kv rest ih =>
      intro hl e
      rw [List.foldl_cons]
      refine le_trans ?_
        (ih (fun kv2 h2 => hl kv2 (List.mem_cons_of_mem kv h2)) _)
      by_cases hpos : 0 < kv.2
      · rw [if_pos hpos]
        have hp0 : (0 : ℝ) ≤ (kv.2 : ℝ) / total :=
          div_nonneg (Nat.cast_nonneg kv.2) (le_of_lt htotal)
        have hp1 : (kv.2 : ℝ) / total ≤ 1 :=
          (div_le_one htotal).mpr (hl kv (List.mem_cons_self kv rest))
        have hlog : Real.logb 2 ((kv.2 : ℝ) / total) ≤ 0 :=
          Real.logb_nonpos (by norm_num) hp0 hp1
        have hm := mul_nonneg hp0 (neg_nonneg.mpr hlog)
        rw [mul_neg] at hm
        linarith
      · rw [if_neg hpos]

/-- `_shannon_entropy` is nonnegative. -/
theorem shannon_entropy_nonneg (counts : List (String × ℕ)) :
    0 ≤ shannon_entropy counts := by
  unfold shannon_entropy
  dsimp only
  by_cases h : (counts.map (·.2)).sum = 0
  · rw [if_pos h]
  · rw [if_neg h]
    have htotal : (0 : ℝ) < (((counts.map (·.2)).sum : ℕ) : ℝ) := by
      exact_mod_cast Nat.pos_of_ne_zero h
    refine entropy_fold_ge _ htotal counts ?_ 0
    intro kv hkv
    exact_mod_cast List.single_le_sum (fun n _ => Nat.zero_le n) _
      (List.mem_map_of_mem (·.2) hkv)

/-- C2 (corrected): the consumer profile is a three-entry list whose
first and third entries lie in [0,1]; the middle entry (the consumer
kind entropy) is nonnegative but not clamped to 1. -/
theorem c2_consumer_profile_bounds (u : CodeUnit) :
    (consumer_profile u).length = 3
    ∧ 0 ≤ (consumer_profile u).getD 0 0
    ∧ (consumer_profile u).getD 0 0 ≤ 1
    ∧ 0 ≤ (consumer_profile u).getD 1 0
    ∧ 0 ≤ (consumer_profile u).getD 2 0
    ∧ (consumer_profile u).getD 2 0 ≤ 1 := by
  unfold consumer_profile
  dsimp only
  simp only [List.getD_cons_zero, List.getD_cons_succ]
  refine ⟨rfl, ?_, ?_, ?_, ?_, ?_⟩
  · split
    · exact le_min (by norm_num) (by positivity)
    · norm_num
  · split
    · exact min_le_left _ _
    · norm_num
  · split
    · norm_num
    · exact shannon_entropy_nonneg _
  · refine le_min (by norm_num) ?_
    split
    · positivity
    · norm_num
  · exact min_le_left _ _

/-- C2 counterexample: a unit whose four consumers split evenly over
four kinds has kind entropy log2(4) = 2, so the middle profile entry
exceeds 1. -/
theorem c2_counterexample : (consumer_profile uC2).getD 1 0 = 2 := by
  have hlogb : Real.logb 2 ((1 : ℝ) / 4) = -2 := by
    rw [show ((1 : ℝ) / 4) = ((2 : ℝ) ^ (2 : ℕ))⁻¹ by norm_num,
      Real.logb_inv, Real.logb_pow, Real.logb_self_eq_one (by norm_num)]
    norm_num
  unfold consumer_profile uC2
  dsimp only
  simp only [List.getD_cons_zero, List.getD_cons_succ]
  rw [if_neg (by decide :
    ¬(([("component", (1:ℕ)), ("hook", 1), ("function", 1),
        ("method", 1)] : List (String × ℕ)).isEmpty = true))]
  unfold shannon_entropy
  dsimp only
  rw [show (([("component", (1:ℕ)), ("hook", 1), ("function", 1),
        ("method", 1)] : List (String × ℕ)).map (·.2)).sum = 4 from by
      decide]
  rw [if_neg (by decide : ¬((4 : ℕ) = 0))]
  simp only [List.foldl_cons, List.foldl_nil]
  norm_num [hlogb]

/-! ## C1: two identical unary functions -/

/-- A strict-hash match on a shared non-empty signature scores 1. -/
theorem sig_type_signature_same (ts : Artifact TypeSig) (a b : String)
    (s : TypeSig) (ha : ts.lookup a = some s) (hb : ts.lookup b = some s)
    (hne : s.strict_hash ≠ "") :
    sig_type_signature ts a b = 1 := by
  unfold sig_type_signature
  rw [ha, hb]
  dsimp only
  have hc : (s.strict_hash != "" && s.strict_hash == s.strict_hash)
      = true := by
    simp [hne]
  rw [if_pos hc]

/-- Both fixture units share one normalized type signature. -/
theorem tsC1_lookup_a :
    tsC1.lookup "a" = some (normalize_type ["string"] "number") := rfl

/-- Both fixture units share one normalized type signature. -/
theorem tsC1_lookup_b :
    tsC1.lookup "b" = some (normalize_type ["string"] "number") := rfl

/-- The fixture pair scores 1 on the type-signature signal. -/
theorem c1_sig_typeSignature : sig_type_signature tsC1 "a" "b" = 1 :=
  sig_type_signature_same tsC1 "a" "b" (normalize_type ["string"] "number")
    tsC1_lookup_a tsC1_lookup_b (sha256Hex_ne_empty _)

/-- The fixture pair scores 0 on imports (both constellations empty). -/
theorem c1_sig_imports : sig_imports fpsC1 "a" "b" = 0 := rfl

/-- The fixture pair scores 0 on data access (both patterns empty). -/
theorem c1_sig_dataAccess : sig_data_access fpsC1 "a" "b" = 0 := rfl

/-- The fixture pair scores 0 on callee sets (both vectors empty). -/
theorem c1_sig_calleeSet : sig_callee_set cgC1 "a" "b" = 0 := rfl

/-- The fixture pair scores 0 on call sequences (no shared contexts). -/
theorem c1_sig_callSequence : sig_call_sequence cgC1 "a" "b" = 0 := rfl

/-- The fixture pair scores 0 on consumer sets (both empty). -/
theorem c1_sig_consumerSet : sig_consumer_set ubiC1 "a" "b" = 0 := rfl

/-- The fixture pair scores 0 on co-occurrence (both vectors empty). -/
theorem c1_sig_coOccurrence : sig_cooccurrence dcC1 "a" "b" = 0 := rfl

/-- The fixture pair scores 1 on behavior: both flag vectors are the
non-empty all-zero vector, whose normalized Hamming similarity is 1. -/
theorem c1_sig_behavior : sig_behavior fpsC1 "a" "b" = 1 := by
  show normalized_hamming [0, 0, 0, 0, 0, 0, 0, 0]
      [0, 0, 0, 0, 0, 0, 0, 0] = 1
  unfold normalized_hamming
  rw [if_neg (by decide : ¬(([0, 0, 0, 0, 0, 0, 0, 0] : List ℤ) = []
      ∧ ([0, 0, 0, 0, 0, 0, 0, 0] : List ℤ) = []))]
  rw [if_neg (by decide :
    ¬(([0, 0, 0, 0, 0, 0, 0, 0] : List ℤ).length
        ≠ ([0, 0, 0, 0, 0, 0, 0, 0] : List ℤ).length))]
  rw [show countDiffs [0, 0, 0, 0, 0, 0, 0, 0] [0, 0, 0, 0, 0, 0, 0, 0]
      = 0 from by decide]
  norm_num

/-- The fixture pair scores 1 on neighborhood: both units have no
consumers, so both radius-1 hashes are the hash of the empty list. -/
theorem c1_sig_neighborhood : sig_neighborhood dcC1 "a" "b" = 1 := by
  have h := empty_consumers_signal corpusC1 unitA unitB
    (by unfold corpusC1; exact List.mem_cons_self _ _)
    (by unfold corpusC1
        exact List.mem_cons_of_mem _ (List.mem_cons_self _ _))
    (by decide) (by decide)
    (by
      intro w hw _
      unfold corpusC1 at hw
      rcases List.mem_cons.mp hw with rfl | hw2
      · rfl
      rcases List.mem_cons.mp hw2 with rfl | hw3
      · rfl
      exact absurd hw3 (List.not_mem_nil w))
    (by
      intro w hw _
      unfold corpusC1 at hw
      rcases List.mem_cons.mp hw with rfl | hw2
      · rfl
      rcases List.mem_cons.mp hw2 with rfl | hw3
      · rfl
      exact absurd hw3 (List.not_mem_nil w))
  exact h.2.2

/-- The adapted weight table for a function/function pair without
embeddings or structural patterns: the base table minus jsxStructure and
hookProfile. -/
theorem c1_adapted_weights :
    adapted_weights false false "function" "function"
      = [("typeSignature", 0.16), ("imports", 0.06), ("dataAccess", 0.04),
       ("behavior", 0.02), ("calleeSet", 0.13), ("callSequence", 0.13),
       ("consumerSet", 0.10), ("coOccurrence", 0.08),
       ("neighborhood", 0.06)] := rfl

/-- The adapted function/function table sums to 0.78. -/
theorem c1_sum_adapted :
    sumVals [("typeSignature", 0.16), ("imports", 0.06), ("dataAccess", 0.04),
       ("behavior", 0.02), ("calleeSet", 0.13), ("callSequence", 0.13),
       ("consumerSet", 0.10), ("coOccurrence", 0.08),
       ("neighborhood", 0.06)] = 0.78 := by
  norm_num [sumVals]

/-- The renormalized function/function weight table. -/
theorem c1_get_weights :
    get_weights false false "function" "function"
      = [("typeSignature", 0.16 / 0.78), ("imports", 0.06 / 0.78),
       ("dataAccess", 0.04 / 0.78), ("behavior", 0.02 / 0.78),
       ("calleeSet", 0.13 / 0.78), ("callSequence", 0.13 / 0.78),
       ("consumerSet", 0.10 / 0.78), ("coOccurrence", 0.08 / 0.78),
       ("neighborhood", 0.06 / 0.78)] := by
  have hpos : (0 : ℝ) < sumVals [("typeSignature", 0.16), ("imports", 0.06), ("dataAccess", 0.04),
       ("behavior", 0.02), ("calleeSet", 0.13), ("callSequence", 0.13),
       ("consumerSet", 0.10), ("coOccurrence", 0.08),
       ("neighborhood", 0.06)] := by
    rw [c1_sum_adapted]
    norm_num
  show (if 0 < sumVals (adapted_weights false false "function" "function")
      then (adapted_weights false false "function" "function").map (fun kv =>
        (kv.1, kv.2 / sumVals (adapted_weights false false "function"
          "function")))
      else adapted_weights false false "function" "function") = _
  rw [c1_adapted_weights, if_pos hpos]
  simp only [List.map_cons, List.map_nil]
  rw [c1_sum_adapted]

/-- The signal dict of the fixture pair, entry by entry. -/
theorem c1_signals_eval :
    computeSignals [("typeSignature", 0.16 / 0.78), ("imports", 0.06 / 0.78),
       ("dataAccess", 0.04 / 0.78), ("behavior", 0.02 / 0.78),
       ("calleeSet", 0.13 / 0.78), ("callSequence", 0.13 / 0.78),
       ("consumerSet", 0.10 / 0.78), ("coOccurrence", 0.08 / 0.78),
       ("neighborhood", 0.06 / 0.78)]
      ubiC1 fpsC1 tsC1 cgC1 dcC1 [] [] "a" "b"
      = [("typeSignature", (1 : ℝ)), ("imports", 0), ("dataAccess", 0),
       ("behavior", 1), ("calleeSet", 0), ("callSequence", 0),
       ("consumerSet", 0), ("coOccurrence", 0), ("neighborhood", 1)] := by
  unfold computeSignals
  rw [if_neg (by decide :
    ¬((([("typeSignature", 0.16 / 0.78), ("imports", 0.06 / 0.78),
       ("dataAccess", 0.04 / 0.78), ("behavior", 0.02 / 0.78),
       ("calleeSet", 0.13 / 0.78), ("callSequence", 0.13 / 0.78),
       ("consumerSet", 0.10 / 0.78), ("coOccurrence", 0.08 / 0.78),
       ("neighborhood", 0.06 / 0.78)]
      : List (String × ℝ)).lookup "semantic").isSome = true))]
  rw [if_pos (by decide :
    ((([("typeSignature", 0.16 / 0.78), ("imports", 0.06 / 0.78),
       ("dataAccess", 0.04 / 0.78), ("behavior", 0.02 / 0.78),
       ("calleeSet", 0.13 / 0.78), ("callSequence", 0.13 / 0.78),
       ("consumerSet", 0.10 / 0.78), ("coOccurrence", 0.08 / 0.78),
       ("neighborhood", 0.06 / 0.78)]
      : List (String × ℝ)).lookup "typeSignature").isSome = true))]
  rw [if_neg (by decide :
    ¬((([("typeSignature", 0.16 / 0.78), ("imports", 0.06 / 0.78),
       ("dataAccess", 0.04 / 0.78), ("behavior", 0.02 / 0.78),
       ("calleeSet", 0.13 / 0.78), ("callSequence", 0.13 / 0.78),
       ("consumerSet", 0.10 / 0.78), ("coOccurrence", 0.08 / 0.78),
       ("neighborhood", 0.06 / 0.78)]
      : List (String × ℝ)).lookup "jsxStructure").isSome = true))]
  rw [if_neg (by decide :
    ¬((([("typeSignature", 0.16 / 0.78), ("imports", 0.06 / 0.78),
       ("dataAccess", 0.04 / 0.78), ("behavior", 0.02 / 0.78),
       ("calleeSet", 0.13 / 0.78), ("callSequence", 0.13 / 0.78),
       ("consumerSet", 0.10 / 0.78), ("coOccurrence", 0.08 / 0.78),
       ("neighborhood", 0.06 / 0.78)]
      : List (String × ℝ)).lookup "hookProfile").isSome = true))]
  rw [if_pos (by decide :
    ((([("typeSignature", 0.16 / 0.78), ("imports", 0.06 / 0.78),
       ("dataAccess", 0.04 / 0.78), ("behavior", 0.02 / 0.78),
       ("calleeSet", 0.13 / 0.78), ("callSequence", 0.13 / 0.78),
       ("consumerSet", 0.10 / 0.78), ("coOccurrence", 0.08 / 0.78),
       ("neighborhood", 0.06 / 0.78)]
      : List (String × ℝ)).lookup "imports").isSome = true))]
  rw [if_pos (by decide :
    ((([("typeSignature", 0.16 / 0.78), ("imports", 0.06 / 0.78),
       ("dataAccess", 0.04 / 0.78), ("behavior", 0.02 / 0.78),
       ("calleeSet", 0.13 / 0.78), ("callSequence", 0.13 / 0.78),
       ("consumerSet", 0.10 / 0.78), ("coOccurrence", 0.08 / 0.78),
       ("neighborhood", 0.06 / 0.78)]
      : List (String × ℝ)).lookup "dataAccess").isSome = true))]
  rw [if_pos (by decide :
    ((([("typeSignature", 0.16 / 0.78), ("imports", 0.06 / 0.78),
       ("dataAccess", 0.04 / 0.78), ("behavior", 0.02 / 0.78),
       ("calleeSet", 0.13 / 0.78), ("callSequence", 0.13 / 0.78),
       ("consumerSet", 0.10 / 0.78), ("coOccurrence", 0.08 / 0.78),
       ("neighborhood", 0.06 / 0.78)]
      : List (String × ℝ)).lookup "behavior").isSome = true))]
  rw [if_pos (by decide :
    ((([("typeSignature", 0.16 / 0.78), ("imports", 0.06 / 0.78),
       ("dataAccess", 0.04 / 0.78), ("behavior", 0.02 / 0.78),
       ("calleeSet", 0.13 / 0.78), ("callSequence", 0.13 / 0.78),
       ("consumerSet", 0.10 / 0.78), ("coOccurrence", 0.08 / 0.78),
       ("neighborhood", 0.06 / 0.78)]
      : List (String × ℝ)).lookup "calleeSet").isSome = true))]
  rw [if_pos (by decide :
    ((([("typeSignature", 0.16 / 0.78), ("imports", 0.06 / 0.78),
       ("dataAccess", 0.04 / 0.78), ("behavior", 0.02 / 0.78),
       ("calleeSet", 0.13 / 0.78), ("callSequence", 0.13 / 0.78),
       ("consumerSet", 0.10 / 0.78), ("coOccurrence", 0.08 / 0.78),
       ("neighborhood", 0.06 / 0.78)]
      : List (String × ℝ)).lookup "callSequence").isSome = true))]
  rw [if_pos (by decide :
    ((([("typeSignature", 0.16 / 0.78), ("imports", 0.06 / 0.78),
       ("dataAccess", 0.04 / 0.78), ("behavior", 0.02 / 0.78),
       ("calleeSet", 0.13 / 0.78), ("callSequence", 0.13 / 0.78),
       ("consumerSet", 0.10 / 0.78), ("coOccurrence", 0.08 / 0.78),
       ("neighborhood", 0.06 / 0.78)]
      : List (String × ℝ)).lookup "consumerSet").isSome = true))]
  rw [if_pos (by decide :
    ((([("typeSignature", 0.16 / 0.78), ("imports", 0.06 / 0.78),
       ("dataAccess", 0.04 / 0.78), ("behavior", 0.02 / 0.78),
       ("calleeSet", 0.13 / 0.78), ("callSequence", 0.13 / 0.78),
       ("consumerSet", 0.10 / 0.78), ("coOccurrence", 0.08 / 0.78),
       ("neighborhood", 0.06 / 0.78)]
      : List (String × ℝ)).lookup "coOccurrence").isSome = true))]
  rw [if_pos (by decide :
    ((([("typeSignature", 0.16 / 0.78), ("imports", 0.06 / 0.78),
       ("dataAccess", 0.04 / 0.78), ("behavior", 0.02 / 0.78),
       ("calleeSet", 0.13 / 0.78), ("callSequence", 0.13 / 0.78),
       ("consumerSet", 0.10 / 0.78), ("coOccurrence", 0.08 / 0.78),
       ("neighborhood", 0.06 / 0.78)]
      : List (String × ℝ)).lookup "neighborhood").isSome = true))]
  rw [if_neg (by decide :
    ¬((([("typeSignature", 0.16 / 0.78), ("imports", 0.06 / 0.78),
       ("dataAccess", 0.04 / 0.78), ("behavior", 0.02 / 0.78),
       ("calleeSet", 0.13 / 0.78), ("callSequence", 0.13 / 0.78),
       ("consumerSet", 0.10 / 0.78), ("coOccurrence", 0.08 / 0.78),
       ("neighborhood", 0.06 / 0.78)]
      : List (String × ℝ)).lookup "structuralPattern").isSome = true))]
  rw [c1_sig_typeSignature, c1_sig_imports, c1_sig_dataAccess,
    c1_sig_behavior, c1_sig_calleeSet, c1_sig_callSequence,
    c1_sig_consumerSet, c1_sig_coOccurrence, c1_sig_neighborhood]
  rfl

/-- The weighted sum over the fixture signal dict:
(0.16 + 0.02 + 0.06) / 0.78 = 4/13. -/
theorem c1_score_eval :
    scoreOf [("typeSignature", 0.16 / 0.78), ("imports", 0.06 / 0.78),
       ("dataAccess", 0.04 / 0.78), ("behavior", 0.02 / 0.78),
       ("calleeSet", 0.13 / 0.78), ("callSequence", 0.13 / 0.78),
       ("consumerSet", 0.10 / 0.78), ("coOccurrence", 0.08 / 0.78),
       ("neighborhood", 0.06 / 0.78)]
      [("typeSignature", (1 : ℝ)), ("imports", 0), ("dataAccess", 0),
       ("behavior", 1), ("calleeSet", 0), ("callSequence", 0),
       ("consumerSet", 0), ("coOccurrence", 0), ("neighborhood", 1)] = 4 / 13 := by
  simp [scoreOf, List.lookup]
  norm_num

/-- Signals and raw score of the fixture pair as `score_pair` computes
them. -/
theorem c1_pair_eval :
    (score_pair ubiC1 fpsC1 tsC1 cgC1 dcC1 [] [] false false
        "a" "b").signals
      = [("typeSignature", (1 : ℝ)), ("imports", 0), ("dataAccess", 0),
       ("behavior", 1), ("calleeSet", 0), ("callSequence", 0),
       ("consumerSet", 0), ("coOccurrence", 0), ("neighborhood", 1)]
    ∧ (score_pair ubiC1 fpsC1 tsC1 cgC1 dcC1 [] [] false false
        "a" "b").score = 4 / 13 := by
  unfold score_pair
  dsimp only
  rw [show ((ubiC1.lookup "a").getD ({} : CodeUnit)).kind = "function"
      from rfl,
    show ((ubiC1.lookup "b").getD ({} : CodeUnit)).kind = "function"
      from rfl,
    c1_get_weights, c1_signals_eval]
  exact ⟨rfl, c1_score_eval⟩

/-- C1 (corrected): for two identical unary functions in different
files the typeSignature signal is 1, but the behavior and neighborhood
signals are also 1 (the non-empty all-zero flag vectors match exactly,
and the two empty neighborhoods share the empty-list hash); the other
six computed signals are 0.  The score is (0.16 + 0.02 + 0.06)/0.78 =
4/13 — not the renormalized typeSignature weight alone — and the pair is
emitted exactly when the threshold is at most 4/13. -/
theorem c1_two_identical_functions :
    (score_pair ubiC1 fpsC1 tsC1 cgC1 dcC1 [] [] false false
        "a" "b").signals
      = [("typeSignature", (1 : ℝ)), ("imports", 0), ("dataAccess", 0),
       ("behavior", 1), ("calleeSet", 0), ("callSequence", 0),
       ("consumerSet", 0), ("coOccurrence", 0), ("neighborhood", 1)]
    ∧ (score_pair ubiC1 fpsC1 tsC1 cgC1 dcC1 [] [] false false
        "a" "b").score = 4 / 13
    ∧ ∀ t : ℝ, (compute_scores corpusC1 fpsC1 tsC1 cgC1 dcC1 [] [] t ≠ []
        ↔ t ≤ 4 / 13) := by
  refine ⟨c1_pair_eval.1, c1_pair_eval.2, ?_⟩
  intro t
  unfold compute_scores
  dsimp only
  rw [show ((units_by_id corpusC1).filter
      (fun kv => !(SKIP_KINDS.contains kv.2.kind))).map Prod.fst
      = ["a", "b"] from rfl]
  rw [show pairsOf ["a", "b"] = [("a", "b")] from rfl]
  simp only [List.filterMap_cons, List.filterMap_nil]
  rw [show (((units_by_id corpusC1).lookup "a").getD
      ({} : CodeUnit)).filePath = "src/a.ts" from rfl,
    show (((units_by_id corpusC1).lookup "b").getD
      ({} : CodeUnit)).filePath = "src/b.ts" from rfl,
    show (((units_by_id corpusC1).lookup "a").getD
      ({} : CodeUnit)).kind = "function" from rfl,
    show (((units_by_id corpusC1).lookup "b").getD
      ({} : CodeUnit)).kind = "function" from rfl]
  rw [if_neg (by decide : ¬(("src/a.ts" : String) ≠ ""
      ∧ ("src/b.ts" : String) ≠ ""
      ∧ ("src/a.ts" : String) = "src/b.ts"))]
  rw [if_pos (show is_comparable "function" "function" = true from rfl)]
  rw [show (!([] : Artifact (List ℝ)).isEmpty) = false from rfl,
    show (!([] : Artifact (List String)).isEmpty) = false from rfl,
    show units_by_id corpusC1 = ubiC1 from rfl]
  rw [c1_pair_eval.2]
  by_cases ht : t ≤ 4 / 13
  · rw [if_pos ht]
    dsimp only
    simp [ht]
  · rw [if_neg ht]
    dsimp only
    simp [ht]

/-- C1 counterexample: the behavior and neighborhood signals of the
identical-function pair are 1, not 0, and the score 4/13 is strictly
larger than the renormalized typeSignature weight 8/39. -/
theorem c1_counterexample :
    ("behavior", (1 : ℝ)) ∈ (score_pair ubiC1 fpsC1 tsC1 cgC1 dcC1 [] []
        false false "a" "b").signals
    ∧ ("neighborhood", (1 : ℝ)) ∈ (score_pair ubiC1 fpsC1 tsC1 cgC1 dcC1
        [] [] false false "a" "b").signals
    ∧ ((get_weights false false "function" "function").lookup
        "typeSignature").getD 0 = 8 / 39
    ∧ (score_pair ubiC1 fpsC1 tsC1 cgC1 dcC1 [] [] false false
        "a" "b").score = 4 / 13
    ∧ (8 : ℝ) / 39 < 4 / 13 := by
  refine ⟨?_, ?_, ?_, c1_pair_eval.2, by norm_num⟩
  · rw [c1_pair_eval.1]
    exact List.mem_cons_of_mem _ (List.mem_cons_of_mem _
      (List.mem_cons_of_mem _ (List.mem_cons_self _ _)))
  · rw [c1_pair_eval.1]
    exact List.mem_cons_of_mem _ (List.mem_cons_of_mem _
      (List.mem_cons_of_mem _ (List.mem_cons_of_mem _
        (List.mem_cons_of_mem _ (List.mem_cons_of_mem _
          (List.mem_cons_of_mem _ (List.mem_cons_of_mem _
            (List.mem_cons_self _ _))))))))
  · rw [c1_get_weights]
    simp [List.lookup]
    norm_num

end

end DriftSemantic
